/-
Verification of the nucperiod repository's stratification / conversion scripts.

The development shallowly embeds the Python sources:
  * src/python_packages/mutperiod/mutperiodpy/StratifyNucleosomeMap.py
  * src/python_packages/mutperiod/mutperiodpy/RunAnalysisSuite.py
  * src/python_scripts/ParseKucabCompendium.py
  * src/python_scripts/ParseUVDE-Seq.py
plus a model (from the specification) of the sorted-interval overlap counter
provided by the external benbiohelpers.CountThisInThat package, which the
repository uses but does not contain.
-/
import Mathlib

/-! ## Chromosome ordering

Chromosomes are strings ordered lexicographically (the sort invariant of the
bed files: "sorted first by chromosome (string) and then by nucleotide
position (numeric)").  We use an executable lexicographic comparison on the
underlying character lists. -/

def charListLtB : List Char → List Char → Bool
  | [], [] => false
  | [], _ :: _ => true
  | _ :: _, [] => false
  | a :: as, b :: bs => if a < b then true else if b < a then false else charListLtB as bs

def chromLtB (a b : String) : Bool := charListLtB a.data b.data

theorem charListLtB_irrefl : ∀ l : List Char, charListLtB l l = false := by
  intro l
  induction l with
  | nil => rfl
  | cons a as ih => simp [charListLtB, ih]

theorem chromLtB_irrefl (s : String) : chromLtB s s = false := charListLtB_irrefl s.data

theorem charListLtB_trans : ∀ l₁ l₂ l₃ : List Char,
    charListLtB l₁ l₂ = true → charListLtB l₂ l₃ = true → charListLtB l₁ l₃ = true := by
  intro l₁
  induction l₁ with
  | nil =>
    intro l₂ l₃ h₁ h₂
    cases l₂ with
    | nil => exact absurd h₁ (by simp [charListLtB])
    | cons b bs =>
      cases l₃ with
      | nil => exact absurd h₂ (by simp [charListLtB])
      | cons c cs => rfl
  | cons a as ih =>
    intro l₂ l₃ h₁ h₂
    cases l₂ with
    | nil => exact absurd h₁ (by simp [charListLtB])
    | cons b bs =>
      cases l₃ with
      | nil => exact absurd h₂ (by simp [charListLtB])
      | cons c cs =>
        simp only [charListLtB] at h₁ h₂ ⊢
        by_cases hab : a < b
        · by_cases hbc : b < c
          · simp [lt_trans hab hbc]
          · by_cases hcb : c < b
            · simp [hbc, hcb] at h₂
            · have hbc' : b = c := le_antisymm (not_lt.mp hcb) (not_lt.mp hbc)
              have hac : a < c := hbc' ▸ hab
              simp [hac]
        · by_cases hba : b < a
          · simp [hab, hba] at h₁
          · have hab' : a = b := le_antisymm (not_lt.mp hba) (not_lt.mp hab)
            subst hab'
            by_cases hac : a < c
            · simp [hac]
            · by_cases hca : c < a
              · simp [hac, hca] at h₂
              · rw [if_neg hac, if_neg hca]
                rw [if_neg (lt_irrefl a), if_neg (lt_irrefl a)] at h₁
                rw [if_neg hac, if_neg hca] at h₂
                exact ih bs cs h₁ h₂

theorem chromLtB_trans {a b c : String} (h₁ : chromLtB a b = true) (h₂ : chromLtB b c = true) :
    chromLtB a c = true := charListLtB_trans a.data b.data c.data h₁ h₂

theorem charListLtB_antisymm_eq : ∀ l₁ l₂ : List Char,
    charListLtB l₁ l₂ = false → charListLtB l₂ l₁ = false → l₁ = l₂ := by
  intro l₁
  induction l₁ with
  | nil =>
    intro l₂ h₁ _
    cases l₂ with
    | nil => rfl
    | cons b bs => simp [charListLtB] at h₁
  | cons a as ih =>
    intro l₂ h₁ h₂
    cases l₂ with
    | nil => simp [charListLtB] at h₂
    | cons b bs =>
      simp only [charListLtB] at h₁ h₂
      by_cases hab : a < b
      · simp [hab] at h₁
      · by_cases hba : b < a
        · simp [hab, hba] at h₂
        · have hab' : a = b := le_antisymm (not_lt.mp hba) (not_lt.mp hab)
          subst hab'
          simp only [if_neg hab, lt_irrefl, if_neg (lt_irrefl a)] at h₁ h₂
          rw [ih bs h₁ h₂]

theorem chromLtB_antisymm_eq {a b : String} (h₁ : chromLtB a b = false)
    (h₂ : chromLtB b a = false) : a = b := by
  have : a.data = b.data := charListLtB_antisymm_eq a.data b.data h₁ h₂
  cases a; cases b; exact congrArg String.mk this

theorem chromLtB_asymm {a b : String} (h : chromLtB a b = true) : chromLtB b a = false := by
  by_contra hc
  have hba : chromLtB b a = true := by
    cases hcb : chromLtB b a with
    | false => exact absurd hcb hc
    | true => rfl
  have := chromLtB_trans h hba
  rw [chromLtB_irrefl] at this
  exact Bool.false_ne_true this

theorem chromLtB_ne {a b : String} (h : chromLtB a b = true) : a ≠ b := by
  intro he
  subst he
  rw [chromLtB_irrefl] at h
  exact Bool.false_ne_true h

namespace CountThisInThat

/-! ## SortedIntervalOverlapCounter

Modelled from the spec: the counting engine (benbiohelpers.CountThisInThat,
used through the NucleosomeStratifier subclass in StratifyNucleosomeMap.py) is
not part of this repository's sources.  The model follows spec section 4.1:
a merge-style sweep over two pre-sorted streams keeping a cursor into the
encompassing stream and an active set of admitted intervals; intervals on the
same chromosome with start ≤ position are admitted, intervals with
end < position or a different chromosome are evicted, and the emitted count
for each encompassed record is the size of the active set. -/

structure EncompassingInterval where
  chrom : String
  start : Int
  stop : Int
deriving DecidableEq, Repr

structure EncompassedPoint where
  chrom : String
  pos : Int
  strand : String
deriving DecidableEq, Repr

/-- Modelled from the spec: containment with inclusive bounds on the same
chromosome (start ≤ point ≤ end). -/
def containsPoint (i : EncompassingInterval) (p : EncompassedPoint) : Bool :=
  decide (i.chrom = p.chrom) && decide (i.start ≤ p.pos) && decide (p.pos ≤ i.stop)

/-- Modelled from the spec: the brute-force count of encompassing intervals
containing a point. -/
def bruteCount (intervals : List EncompassingInterval) (p : EncompassedPoint) : Nat :=
  (intervals.filter (fun i => containsPoint i p)).length

/-- Sort order of the encompassing stream: by chromosome (string), then start. -/
def intervalLE (a b : EncompassingInterval) : Prop :=
  chromLtB a.chrom b.chrom = true ∨ (a.chrom = b.chrom ∧ a.start ≤ b.start)

/-- Sort order of the encompassed stream: by chromosome (string), then position. -/
def pointLE (a b : EncompassedPoint) : Prop :=
  chromLtB a.chrom b.chrom = true ∨ (a.chrom = b.chrom ∧ a.pos ≤ b.pos)

instance : DecidableRel intervalLE := fun a b => by unfold intervalLE; infer_instance

instance : DecidableRel pointLE := fun a b => by unfold pointLE; infer_instance

theorem pointLE_refl (p : EncompassedPoint) : pointLE p p := Or.inr ⟨rfl, le_refl _⟩

/-- Cursor advance condition: the sweep pops an interval from the stream while
it is on an earlier chromosome (it can never match again) or on the same
chromosome with start ≤ the current position (it must be admitted). -/
def advancePast (p : EncompassedPoint) (i : EncompassingInterval) : Bool :=
  chromLtB i.chrom p.chrom || (decide (i.chrom = p.chrom) && decide (i.start ≤ p.pos))

/-- Advances the cursor for one encompassed point, returning the intervals
admitted into the active set and the rest of the stream. -/
def admitIntervals (p : EncompassedPoint) :
    List EncompassingInterval → List EncompassingInterval × List EncompassingInterval
  | [] => ([], [])
  | i :: rest =>
    if advancePast p i then
      ((if i.chrom = p.chrom then i :: (admitIntervals p rest).1 else (admitIntervals p rest).1),
       (admitIntervals p rest).2)
    else ([], i :: rest)

/-- Eviction condition: an active interval survives for the current point if it
is on the same chromosome (chromosome boundaries reset the active set) and its
end has not been passed. -/
def keepActive (p : EncompassedPoint) (i : EncompassingInterval) : Bool :=
  decide (i.chrom = p.chrom) && decide (p.pos ≤ i.stop)

/-- Single forward sweep: one count per encompassed record, in file order. -/
def sweepLoop : List EncompassingInterval → List EncompassingInterval →
    List EncompassedPoint → List Nat
  | _, _, [] => []
  | remaining, active, p :: ps =>
    let ar := admitIntervals p remaining
    let active2 := (active ++ ar.1).filter (keepActive p)
    active2.length :: sweepLoop ar.2 active2 ps

/-- Modelled from the spec: the SortedIntervalOverlapCounter's per-record
counts over two pre-sorted streams. -/
def sweepCounts (intervals : List EncompassingInterval) (points : List EncompassedPoint) :
    List Nat :=
  sweepLoop intervals [] points

theorem filter_filter_of_imp {α : Type} (f g : α → Bool) :
    ∀ l : List α, (∀ x ∈ l, g x = true → f x = true) →
      (l.filter f).filter g = l.filter g := by
  intro l
  induction l with
  | nil => intro _; rfl
  | cons x xs ih =>
    intro h
    have ih' := ih (fun y hy hgy => h y (List.mem_cons_of_mem x hy) hgy)
    cases hfx : f x with
    | true =>
      cases hgx : g x with
      | true => simp [List.filter_cons, hfx, hgx, ih']
      | false => simp [List.filter_cons, hfx, hgx, ih']
    | false =>
      have hgx : g x = false := by
        cases hgx : g x with
        | false => rfl
        | true => exact absurd (h x (List.mem_cons_self x xs) hgx) (by simp [hfx])
      simp [List.filter_cons, hfx, hgx, ih']

theorem containsPoint_iff (i : EncompassingInterval) (p : EncompassedPoint) :
    containsPoint i p = true ↔ i.chrom = p.chrom ∧ i.start ≤ p.pos ∧ p.pos ≤ i.stop := by
  simp [containsPoint, and_assoc]

theorem bruteCount_append (l₁ l₂ : List EncompassingInterval) (p : EncompassedPoint) :
    bruteCount (l₁ ++ l₂) p = bruteCount l₁ p + bruteCount l₂ p := by
  simp [bruteCount, List.filter_append]

/-- Specification of admitIntervals: it splits the stream at the first interval
that fails the advance condition and admits the popped same-chromosome
intervals. -/
theorem admitIntervals_spec (p : EncompassedPoint) (l : List EncompassingInterval) :
    ∃ popped, l = popped ++ (admitIntervals p l).2 ∧
      (admitIntervals p l).1 = popped.filter (fun i => decide (i.chrom = p.chrom)) ∧
      (∀ i ∈ popped, advancePast p i = true) ∧
      (∀ i, (admitIntervals p l).2.head? = some i → advancePast p i = false) := by
  induction l with
  | nil => exact ⟨[], rfl, rfl, fun i hi => absurd hi (List.not_mem_nil i), fun i hi => by
      simp [admitIntervals] at hi⟩
  | cons i rest ih =>
    cases hadv : advancePast p i with
    | true =>
      obtain ⟨popped, h1, h2, h3, h4⟩ := ih
      refine ⟨i :: popped, ?_, ?_, ?_, ?_⟩
      · simp only [admitIntervals, hadv, if_true]
        exact congrArg (i :: ·) h1
      · simp only [admitIntervals, hadv, if_true, List.filter_cons]
        by_cases hc : i.chrom = p.chrom
        · simp [hc, h2]
        · simp [hc, h2]
      · intro j hj
        rcases List.mem_cons.mp hj with hj | hj
        · exact hj ▸ hadv
        · exact h3 j hj
      · intro j hj
        simp only [admitIntervals, hadv, if_true] at hj
        exact h4 j hj
    | false =>
      refine ⟨[], ?_, ?_, fun j hj => absurd hj (List.not_mem_nil j), ?_⟩
      · simp [admitIntervals, hadv]
      · simp [admitIntervals, hadv]
      · intro j hj
        simp only [admitIntervals, hadv, if_false, Bool.false_eq_true, List.head?] at hj
        cases hj
        exact hadv

/-- Per-point invariant carried for every member of the active set. -/
def activeBound (p : EncompassedPoint) (i : EncompassingInterval) : Prop :=
  (chromLtB i.chrom p.chrom = true ∨ i.chrom = p.chrom) ∧
    (i.chrom = p.chrom → i.start ≤ p.pos)

theorem chrom_le_of_pointLE {p q : EncompassedPoint} (h : pointLE p q) :
    chromLtB p.chrom q.chrom = true ∨ p.chrom = q.chrom := by
  rcases h with h | h
  · exact Or.inl h
  · exact Or.inr h.1

theorem chromLtB_of_lt_of_le {a b c : String} (h₁ : chromLtB a b = true)
    (h₂ : chromLtB b c = true ∨ b = c) : chromLtB a c = true := by
  rcases h₂ with h₂ | h₂
  · exact chromLtB_trans h₁ h₂
  · exact h₂ ▸ h₁

/-- Evicted intervals cannot contain the current point nor any later point. -/
theorem keepActive_false_not_contains {p q : EncompassedPoint} (hpq : pointLE p q)
    {i : EncompassingInterval} (hb : activeBound p i)
    (hk : keepActive p i = false) : containsPoint i q = false := by
  by_contra hc
  have hc' : containsPoint i q = true := by
    cases h : containsPoint i q with
    | false => exact absurd h hc
    | true => rfl
  obtain ⟨hchrom, _, hqstop⟩ := (containsPoint_iff i q).mp hc'
  simp only [keepActive, Bool.and_eq_false_iff, decide_eq_false_iff_not] at hk
  rcases hk with hk | hk
  · rcases hb.1 with hlt | heq
    · have : chromLtB i.chrom q.chrom = true := chromLtB_of_lt_of_le hlt (chrom_le_of_pointLE hpq)
      exact chromLtB_ne this hchrom
    · exact hk heq
  · rcases chrom_le_of_pointLE hpq with hlt | heq
    · by_cases hip : i.chrom = p.chrom
      · have : chromLtB p.chrom q.chrom = true := hlt
        exact chromLtB_ne (hip ▸ this) hchrom
      · rcases hb.1 with hl | hl
        · exact chromLtB_ne (chromLtB_of_lt_of_le hl (Or.inl hlt)) hchrom
        · exact hip hl
    · rcases hpq with hpq | hpq
      · rw [heq] at hpq
        rw [chromLtB_irrefl] at hpq
        exact Bool.false_ne_true hpq
      · by_cases hip : i.chrom = p.chrom
        · have hpos : p.pos ≤ q.pos := hpq.2
          have : q.pos ≤ i.stop := hqstop
          omega
        · rcases hb.1 with hl | hl
          · exact chromLtB_ne (chromLtB_of_lt_of_le hl (Or.inr heq)) hchrom
          · exact hip hl

/-- Surviving active members all contain the current point. -/
theorem keepActive_true_contains {p : EncompassedPoint} {i : EncompassingInterval}
    (hb : activeBound p i) (hk : keepActive p i = true) : containsPoint i p = true := by
  simp only [keepActive, Bool.and_eq_true, decide_eq_true_eq] at hk
  exact (containsPoint_iff i p).mpr ⟨hk.1, hb.2 hk.1, hk.2⟩

/-- Popped intervals on an earlier chromosome cannot contain the current point
nor any later point. -/
theorem popped_contains_imp_chrom {p q : EncompassedPoint} (hpq : pointLE p q)
    {i : EncompassingInterval} (hadv : advancePast p i = true) :
    containsPoint i q = true → i.chrom = p.chrom := by
  intro hc
  obtain ⟨hchrom, _, _⟩ := (containsPoint_iff i q).mp hc
  simp only [advancePast, Bool.or_eq_true, Bool.and_eq_true, decide_eq_true_eq] at hadv
  rcases hadv with hlt | h
  · exact absurd hchrom (chromLtB_ne (chromLtB_of_lt_of_le hlt (chrom_le_of_pointLE hpq)))
  · exact h.1

/-- Intervals left in the stream after the advance do not contain the current
point. -/
theorem rem_not_contains (p : EncompassedPoint) (l : List EncompassingInterval)
    (hs : List.Pairwise intervalLE l) :
    ∀ i ∈ (admitIntervals p l).2, containsPoint i p = false := by
  obtain ⟨popped, h1, _, _, h4⟩ := admitIntervals_spec p l
  intro i hi
  rcases hrem : (admitIntervals p l).2 with _ | ⟨h0, t⟩
  · rw [hrem] at hi; exact absurd hi (List.not_mem_nil i)
  · have hs' : List.Pairwise intervalLE (h0 :: t) := by
      rw [h1, hrem] at hs
      exact (List.pairwise_append.mp hs).2.1
    have hfail : advancePast p h0 = false := h4 h0 (by rw [hrem]; rfl)
    simp only [advancePast, Bool.or_eq_false_iff, Bool.and_eq_false_iff,
      decide_eq_false_iff_not] at hfail
    have hle : intervalLE h0 i ∨ h0 = i := by
      rw [hrem] at hi
      rcases List.mem_cons.mp hi with hi | hi
      · exact Or.inr hi.symm
      · exact Or.inl ((List.pairwise_cons.mp hs').1 i hi)
    by_contra hc
    have hc' : containsPoint i p = true := by
      cases h : containsPoint i p with
      | false => exact absurd h hc
      | true => rfl
    obtain ⟨hchrom, hstart, _⟩ := (containsPoint_iff i p).mp hc'
    have hi0 : chromLtB h0.chrom p.chrom = false := hfail.1
    rcases hle with hle | hle
    · rcases hle with hlt | ⟨heq, hst⟩
      · rw [hchrom] at hlt
        rw [hi0] at hlt
        exact Bool.false_ne_true hlt
      · rw [heq, hchrom] at hfail
        rcases hfail.2 with h | h
        · exact h rfl
        · exact h (le_trans hst hstart)
    · rw [hle] at hfail
      rcases hfail.2 with h | h
      · exact h hchrom
      · exact h hstart

/-- Main sweep correctness: with both streams sorted, the sweep emits for each
encompassed point the brute-force number of containing intervals. -/
theorem sweepLoop_eq_map (t : EncompassedPoint → Nat) :
    ∀ (points : List EncompassedPoint) (remaining active : List EncompassingInterval),
      List.Pairwise intervalLE remaining →
      List.Pairwise pointLE points →
      (∀ q ∈ points, bruteCount (active ++ remaining) q = t q) →
      (∀ q ∈ points, ∀ i ∈ active, activeBound q i) →
      sweepLoop remaining active points = points.map t := by
  intro points
  induction points with
  | nil => intro _ _ _ _ _ _; rfl
  | cons p ps ih =>
    intro remaining active hsr hsp hcnt hinv
    obtain ⟨popped, h1, h2, h3, h4⟩ := admitIntervals_spec p remaining
    have hple : ∀ q ∈ ps, pointLE p q := (List.pairwise_cons.mp hsp).1
    have hbound : ∀ i ∈ active ++ (admitIntervals p remaining).1, activeBound p i := by
      intro i hi
      rcases List.mem_append.mp hi with hi | hi
      · exact hinv p (List.mem_cons_self p ps) i hi
      · rw [h2] at hi
        obtain ⟨hip, hic⟩ := List.mem_filter.mp hi
        have hic' : i.chrom = p.chrom := of_decide_eq_true hic
        have hadv := h3 i hip
        simp only [advancePast, Bool.or_eq_true, Bool.and_eq_true, decide_eq_true_eq] at hadv
        rcases hadv with hlt | hsc
        · exact absurd hic' (chromLtB_ne (hic' ▸ hlt))
        · exact ⟨Or.inr hic', fun _ => hsc.2⟩
    have hcnt_step : ∀ q, pointLE p q →
        bruteCount ((active ++ (admitIntervals p remaining).1).filter (keepActive p)) q
          = bruteCount active q + bruteCount popped q := by
      intro q hq
      have e1 : ((active ++ (admitIntervals p remaining).1).filter (keepActive p)).filter
          (fun i => containsPoint i q)
          = (active ++ (admitIntervals p remaining).1).filter (fun i => containsPoint i q) := by
        apply filter_filter_of_imp
        intro x hx hcx
        cases hk : keepActive p x with
        | true => rfl
        | false =>
          have hf := keepActive_false_not_contains hq (hbound x hx) hk
          rw [hcx] at hf
          simp at hf
      have e2 : ((admitIntervals p remaining).1).filter (fun i => containsPoint i q)
          = popped.filter (fun i => containsPoint i q) := by
        rw [h2]
        apply filter_filter_of_imp
        intro x hx hcx
        exact decide_eq_true (popped_contains_imp_chrom hq (h3 x hx) hcx)
      show (((active ++ (admitIntervals p remaining).1).filter (keepActive p)).filter
          (fun i => containsPoint i q)).length = _
      rw [e1, List.filter_append, List.length_append]
      show bruteCount active q + ((admitIntervals p remaining).1.filter
          (fun i => containsPoint i q)).length = _
      rw [e2]
      rfl
    have hcount : ((active ++ (admitIntervals p remaining).1).filter (keepActive p)).length
        = t p := by
      have hall : ∀ i ∈ (active ++ (admitIntervals p remaining).1).filter (keepActive p),
          (fun i => containsPoint i p) i = true := by
        intro i hi
        obtain ⟨him, hik⟩ := List.mem_filter.mp hi
        exact keepActive_true_contains (hbound i him) hik
      have hlen : ((active ++ (admitIntervals p remaining).1).filter (keepActive p)).length
          = bruteCount ((active ++ (admitIntervals p remaining).1).filter (keepActive p)) p := by
        unfold bruteCount
        rw [List.filter_eq_self.mpr hall]
      rw [hlen, hcnt_step p (pointLE_refl p)]
      have hrem0 : bruteCount (admitIntervals p remaining).2 p = 0 := by
        unfold bruteCount
        rw [List.length_eq_zero]
        rw [List.filter_eq_nil_iff]
        intro a ha
        rw [rem_not_contains p remaining hsr a ha]
        simp
      have := hcnt p (List.mem_cons_self p ps)
      rw [h1] at this
      rw [bruteCount_append, bruteCount_append] at this
      omega
    show _ :: sweepLoop _ _ ps = t p :: ps.map t
    rw [hcount]
    congr 1
    apply ih
    · rw [h1] at hsr
      exact (List.pairwise_append.mp hsr).2.1
    · exact (List.pairwise_cons.mp hsp).2
    · intro q hq
      rw [bruteCount_append, hcnt_step q (hple q hq)]
      have := hcnt q (List.mem_cons.mpr (Or.inr hq))
      rw [h1, bruteCount_append, bruteCount_append] at this
      omega
    · intro q hq i hi
      obtain ⟨him, hik⟩ := List.mem_filter.mp hi
      have hb := hbound i him
      simp only [keepActive, Bool.and_eq_true, decide_eq_true_eq] at hik
      have hQ := hple q hq
      rcases hQ with hlt | ⟨heq, hpos⟩
      · constructor
        · exact Or.inl (hik.1 ▸ hlt)
        · intro hiq
          exact absurd hiq (chromLtB_ne (hik.1 ▸ hlt))
      · constructor
        · exact Or.inr (hik.1.trans heq)
        · intro _
          have : i.start ≤ p.pos := hb.2 hik.1
          omega

/-- Top-level sweep correctness over the original streams. -/
theorem sweep_eq_brute (intervals : List EncompassingInterval)
    (points : List EncompassedPoint)
    (h1 : List.Pairwise intervalLE intervals) (h2 : List.Pairwise pointLE points) :
    sweepCounts intervals points = points.map (bruteCount intervals) := by
  apply sweepLoop_eq_map
  · exact h1
  · exact h2
  · intro q _
    rw [List.nil_append]
  · intro q _ i hi
    exact absurd hi (List.not_mem_nil i)

end CountThisInThat

namespace StratifyNucleosomeMap

/-! ## StratifyNucleosomeMap.py

Embedding of the rewrite pass (the second half of stratifyNucleosomeMap,
lines 63-87) and of the per-path file traffic of the whole function.  A line
of the original nucleosome map is represented structurally: its first two
tab-separated fields (chromosome, start position), its strand, and the rest
of the raw line; copying an entry verbatim is represented by emitting the
entry itself. -/

structure NucMapEntry where
  chrom : String
  startPos : Int
  strand : String
  rest : String
deriving DecidableEq, Repr

/-- Identity parsed from a row of the encompassment-counts file: the string
"chromosome:position(strand)" split at ':' and '('. -/
structure NucPosID where
  chrom : String
  startPos : Int
  strand : String
deriving DecidableEq, Repr

def idOf (r : NucMapEntry) : NucPosID := ⟨r.chrom, r.startPos, r.strand⟩

/-- Embeds matchesBedEntry (lines 31-34): it compares only the chromosome and
the start position of the bed line; strand designations are assumed equal. -/
def matchesBedEntry (chrom : String) (startPos : Int) (r : NucMapEntry) : Bool :=
  decide (chrom = r.chrom) && decide (startPos = r.startPos)

/-- Failure modes of the rewrite pass: the assert on line 85 (reading an empty
string inside the while loop), and the ValueError from unpacking
"".split()[:2] when the file is already exhausted at the unconditional
readline of line 79. -/
inductive RewriteError
  | matchNotFound (id : NucPosID)
  | emptyLineUnpack (id : NucPosID)
deriving DecidableEq, Repr

/-- Embeds the while loop of lines 83-85: keep reading until a line matches;
reading past the end of the file trips the assert naming the identity. -/
def scanForMatch (id : NucPosID) :
    List NucMapEntry → Except RewriteError (NucMapEntry × List NucMapEntry)
  | [] => .error (.matchNotFound id)
  | r :: rest =>
    if matchesBedEntry id.chrom id.startPos r then .ok (r, rest) else scanForMatch id rest

/-- Embeds the for loop of lines 77-87: for each retained position ID an
unconditional readline (which crashes in matchesBedEntry when the file is
exhausted), then the while loop, then the matching entry is written. -/
def rewriteLoop : List NucPosID → List NucMapEntry → Except RewriteError (List NucMapEntry)
  | [], _ => .ok []
  | id :: _, [] => .error (.emptyLineUnpack id)
  | id :: ids, r :: rest =>
    match scanForMatch id (r :: rest) with
    | .error e => .error e
    | .ok fr =>
      match rewriteLoop ids fr.2 with
      | .error e => .error e
      | .ok out => .ok (fr.1 :: out)

/-- Embeds lines 63-70: rows of the encompassment-counts file after the header,
keeping those whose count field is not "0". -/
def retainedIDs (rows : List (NucPosID × Nat)) : List NucPosID :=
  (rows.filter (fun row => row.2 != 0)).map (fun row => row.1)

/-- Counts-file rows produced for the original map records in file order (the
counter reads the same file and writes one row per record, in order). -/
def countsRowsOf (records : List NucMapEntry) (counts : List Nat) : List (NucPosID × Nat) :=
  (records.zip counts).map (fun rc => (idOf rc.1, rc.2))

/-- Records of the original map whose overlap count is nonzero, in file order:
what the spec says the stratified map should contain. -/
def retainedEntries (records : List NucMapEntry) (counts : List Nat) : List NucMapEntry :=
  ((records.zip counts).filter (fun rc => rc.2 != 0)).map (fun rc => rc.1)

/-- Position key used by matchesBedEntry: chromosome and start only. -/
def posKey (r : NucMapEntry) : String × Int := (r.chrom, r.startPos)

theorem matchesBedEntry_self (r : NucMapEntry) :
    matchesBedEntry (idOf r).chrom (idOf r).startPos r = true := by
  simp [matchesBedEntry, idOf]

theorem matchesBedEntry_false_of_posKey_ne (id : NucPosID) (r : NucMapEntry)
    (h : (id.chrom, id.startPos) ≠ posKey r) :
    matchesBedEntry id.chrom id.startPos r = false := by
  simp only [matchesBedEntry, Bool.and_eq_false_iff, decide_eq_false_iff_not]
  by_cases hc : id.chrom = r.chrom
  · right
    intro hp
    exact h (by simp [posKey, hc, hp])
  · exact Or.inl hc

theorem mem_retainedIDs_countsRowsOf {id : NucPosID} {records : List NucMapEntry}
    {counts : List Nat} (h : id ∈ retainedIDs (countsRowsOf records counts)) :
    ∃ r ∈ records, id = idOf r := by
  simp only [retainedIDs, List.mem_map, List.mem_filter] at h
  obtain ⟨row, ⟨hrow, _⟩, hid⟩ := h
  simp only [countsRowsOf, List.mem_map] at hrow
  obtain ⟨rc, hrc, hrow'⟩ := hrow
  exact ⟨rc.1, (List.of_mem_zip hrc).1, by rw [← hid, ← hrow']⟩

/-- Reduction of the rewrite loop when the head line matches the identity. -/
theorem rewriteLoop_cons_match (id : NucPosID) (ids : List NucPosID) (r : NucMapEntry)
    (rest : List NucMapEntry) (h : matchesBedEntry id.chrom id.startPos r = true) :
    rewriteLoop (id :: ids) (r :: rest)
      = match rewriteLoop ids rest with
        | Except.error e => Except.error e
        | Except.ok out => Except.ok (r :: out) := by
  show (match scanForMatch id (r :: rest) with
    | Except.error e => Except.error e
    | Except.ok fr =>
      match rewriteLoop ids fr.2 with
      | Except.error e => Except.error e
      | Except.ok out => Except.ok (fr.1 :: out))
    = (match rewriteLoop ids rest with
      | Except.error e => Except.error e
      | Except.ok out => Except.ok (r :: out))
  rw [show scanForMatch id (r :: rest) = .ok (r, rest) by simp [scanForMatch, h]]

/-- Skipping a non-matching head line does not change a successful rewrite. -/
theorem rewriteLoop_skip (ids : List NucPosID) (r : NucMapEntry) (rs : List NucMapEntry)
    (out : List NucMapEntry)
    (hno : ∀ id ∈ ids, matchesBedEntry id.chrom id.startPos r = false)
    (hok : rewriteLoop ids rs = .ok out) :
    rewriteLoop ids (r :: rs) = .ok out := by
  cases ids with
  | nil =>
    simp only [rewriteLoop] at hok ⊢
    exact hok
  | cons id ids2 =>
    cases rs with
    | nil => simp [rewriteLoop] at hok
    | cons x xs =>
      have hmr : matchesBedEntry id.chrom id.startPos r = false :=
        hno id (List.mem_cons_self id ids2)
      show (match scanForMatch id (r :: x :: xs) with
        | .error e => .error e
        | .ok fr =>
          match rewriteLoop ids2 fr.2 with
          | .error e => .error e
          | .ok out => .ok (fr.1 :: out)) = Except.ok out
      rw [show scanForMatch id (r :: x :: xs) = scanForMatch id (x :: xs) by
        simp [scanForMatch, hmr]]
      exact hok

/-- Rewrite pass correctness when every (chromosome, position) occurs once:
exactly the records with nonzero count are copied, in file order. -/
theorem rewriteLoop_correct :
    ∀ (records : List NucMapEntry) (counts : List Nat),
      counts.length = records.length →
      List.Pairwise (fun a b => posKey a ≠ posKey b) records →
      rewriteLoop (retainedIDs (countsRowsOf records counts)) records
        = .ok (retainedEntries records counts) := by
  intro records
  induction records with
  | nil =>
    intro counts hlen _
    have : counts = [] := List.length_eq_zero.mp hlen
    subst this
    rfl
  | cons r rs ih =>
    intro counts hlen hpw
    cases counts with
    | nil => simp at hlen
    | cons c cs =>
      have hlen' : cs.length = rs.length := by simpa using hlen
      have hpw' := (List.pairwise_cons.mp hpw).2
      have hhead := (List.pairwise_cons.mp hpw).1
      have hrows : countsRowsOf (r :: rs) (c :: cs) = (idOf r, c) :: countsRowsOf rs cs := by
        simp [countsRowsOf]
      by_cases hc : c = 0
      · subst hc
        have hret : retainedIDs (countsRowsOf (r :: rs) (0 :: cs))
            = retainedIDs (countsRowsOf rs cs) := by
          rw [hrows]
          simp [retainedIDs]
        have hent : retainedEntries (r :: rs) (0 :: cs) = retainedEntries rs cs := by
          simp [retainedEntries]
        rw [hret, hent]
        apply rewriteLoop_skip _ _ _ _ _ (ih cs hlen' hpw')
        intro id hid
        obtain ⟨s, hs, hids⟩ := mem_retainedIDs_countsRowsOf hid
        apply matchesBedEntry_false_of_posKey_ne
        rw [hids]
        show posKey s ≠ posKey r
        exact fun he => hhead s hs he.symm
      · have hret : retainedIDs (countsRowsOf (r :: rs) (c :: cs))
            = idOf r :: retainedIDs (countsRowsOf rs cs) := by
          rw [hrows]
          simp [retainedIDs, hc]
        have hent : retainedEntries (r :: rs) (c :: cs) = r :: retainedEntries rs cs := by
          simp [retainedEntries, hc]
        rw [hret, hent]
        rw [rewriteLoop_cons_match _ _ _ _ (matchesBedEntry_self r)]
        rw [ih cs hlen' hpw']

/-- With every count nonzero, each identity is resolved to its own record. -/
theorem rewriteLoop_all_retained :
    ∀ (records : List NucMapEntry), rewriteLoop (records.map idOf) records = .ok records := by
  intro records
  induction records with
  | nil => rfl
  | cons r rs ih =>
    show rewriteLoop (idOf r :: rs.map idOf) (r :: rs) = Except.ok (r :: rs)
    rw [rewriteLoop_cons_match _ _ _ _ (matchesBedEntry_self r)]
    rw [ih]

theorem retainedIDs_all_nonzero :
    ∀ (records : List NucMapEntry) (counts : List Nat),
      counts.length = records.length → (∀ c ∈ counts, c ≠ 0) →
      retainedIDs (countsRowsOf records counts) = records.map idOf := by
  intro records
  induction records with
  | nil =>
    intro counts hlen _
    have : counts = [] := List.length_eq_zero.mp hlen
    subst this
    rfl
  | cons r rs ih =>
    intro counts hlen hnz
    cases counts with
    | nil => simp at hlen
    | cons c cs =>
      have hc : c ≠ 0 := hnz c (List.mem_cons_self c cs)
      have hlen' : cs.length = rs.length := by simpa using hlen
      have ih' := ih cs hlen' (fun x hx => hnz x (List.mem_cons_of_mem c hx))
      simp only [countsRowsOf, retainedIDs] at ih' ⊢
      simp [hc, ih']

/-- When no remaining line matches the identity at the cursor, the pass fails:
with the match-not-found assert if at least one line could still be read, and
with the empty-line unpack error if the file was already exhausted. -/
theorem rewriteLoop_no_match (id : NucPosID) (ids : List NucPosID)
    (records : List NucMapEntry)
    (hno : ∀ r ∈ records, matchesBedEntry id.chrom id.startPos r = false) :
    rewriteLoop (id :: ids) records
      = .error (if records.isEmpty then .emptyLineUnpack id else .matchNotFound id) := by
  cases records with
  | nil => rfl
  | cons r rest =>
    have hscan : ∀ l : List NucMapEntry,
        (∀ r ∈ l, matchesBedEntry id.chrom id.startPos r = false) →
        scanForMatch id l = .error (.matchNotFound id) := by
      intro l
      induction l with
      | nil => intro _; rfl
      | cons x xs ihs =>
        intro hl
        simp only [scanForMatch, hl x (List.mem_cons_self x xs), Bool.false_eq_true,
          if_false]
        exact ihs (fun y hy => hl y (List.mem_cons_of_mem x hy))
    show (match scanForMatch id (r :: rest) with
      | .error e => .error e
      | .ok fr =>
        match rewriteLoop ids fr.2 with
        | .error e => .error e
        | .ok out => .ok (fr.1 :: out))
      = Except.error (RewriteError.matchNotFound id)
    rw [hscan (r :: rest) hno]

end StratifyNucleosomeMap

/-- Executable suffix test on the underlying character lists, with the
semantics of Python's str.endswith. -/
def strEndsWith (s suffix : String) : Bool :=
  decide (s.data.drop (s.data.length - suffix.data.length) = suffix.data)

namespace ParseUVDESeq

/-! ## ParseUVDE-Seq.py

Embedding of parseUVDESeq (lines 9-48).  A line of the input file is its list
of tab-separated fields; the output file is the list of written lines paired
with the error, if any, that aborted the loop.  The external sort subprocess
of lines 46-48 runs after the file is fully written and is out of scope. -/

/-- Failure modes of the per-line conversion: the ValueError raised for a
non-".bed" file name (line 16), the IndexError from accessing a missing
tab-delimited field, and the ValueError from a non-numeric position field
(both malformed-record errors in the spec's taxonomy). -/
inductive UVDEError
  | inputShape
  | missingField
  | badInt
deriving DecidableEq, Repr

def field (fs : List String) (n : Nat) : Except UVDEError String :=
  match fs.get? n with
  | some s => .ok s
  | none => .error .missingField

/-- Executable decimal parser over the character list: Python's int() on the
digit strings (with optional leading minus) that bed coordinate fields hold. -/
def digitsToNat? : List Char → Option Nat
  | [] => none
  | [c] => if c.isDigit then some (c.toNat - '0'.toNat) else none
  | c :: rest =>
    if c.isDigit then
      (digitsToNat? rest).map (fun n => (c.toNat - '0'.toNat) * 10 ^ rest.length + n)
    else none

def strToInt? (s : String) : Option Int :=
  match s.data with
  | '-' :: rest => (digitsToNat? rest).map (fun n => -(n : Int))
  | l => (digitsToNat? l).map (fun n => (n : Int))

def toIntField (s : String) : Except UVDEError Int :=
  match strToInt? s with
  | some n => .ok n
  | none => .error .badInt

/-- One written output line (without the trailing newline): the six
tab-joined columns of line 43, including the ID string of line 42. -/
def singlenucLine (chromosome : String) (startPos endPos : Int) (plusOrMinus : String)
    (i : Int) : String :=
  chromosome ++ "\t" ++ toString (startPos + i) ++ "\t" ++ toString (endPos + i) ++ "\t"
    ++ (chromosome ++ ":" ++ toString (startPos + i) ++ "-" ++ toString (endPos + i)
        ++ "(" ++ plusOrMinus ++ ")")
    ++ "\tNA\t" ++ plusOrMinus

/-- Embeds the body of the for loop (lines 30-43): extract fields 0, 1, 2 and
5, convert the positions, and emit the two single-base lesion lines. -/
def parseUVDELine (fs : List String) : Except UVDEError (List String) := do
  let chromosome ← field fs 0
  let startPos ← toIntField (← field fs 1)
  let endPosRaw ← toIntField (← field fs 2)
  let endPos := endPosRaw - 1
  let plusOrMinus ← field fs 5
  pure [singlenucLine chromosome startPos endPos plusOrMinus 0,
        singlenucLine chromosome startPos endPos plusOrMinus 1]

/-- Embeds the write loop: lines already written stay in the output file when a
later line raises; nothing after the raising line is processed. -/
def processLines : List (List String) → List String × Option UVDEError
  | [] => ([], none)
  | fs :: rest =>
    match parseUVDELine fs with
    | .error e => ([], some e)
    | .ok out => (out ++ (processLines rest).1, (processLines rest).2)

/-- Embeds parseUVDESeq for one input file: the ".bed" check of lines 15-16
runs before the file is opened, then every line is converted until the first
error.  The result is (content of the output file, aborting error). -/
def parseUVDESeqFile (fileName : String) (lines : List (List String)) :
    List String × Option UVDEError :=
  if !(strEndsWith fileName ".bed") then ([], some .inputShape)
  else processLines lines

/-- Output written for a list of lines that all convert successfully. -/
def goodOutput (lines : List (List String)) : List String :=
  (lines.filterMap (fun l => (parseUVDELine l).toOption)).flatten

theorem processLines_stops_at_error (good : List (List String)) (bad : List String)
    (rest : List (List String)) (e : UVDEError)
    (hgood : ∀ l ∈ good, (parseUVDELine l).isOk = true)
    (hbad : parseUVDELine bad = .error e) :
    processLines (good ++ bad :: rest) = (goodOutput good, some e) := by
  induction good with
  | nil =>
    simp only [List.nil_append, processLines, hbad, goodOutput, List.filterMap_nil,
      List.flatten_nil]
  | cons l g ih =>
    have hl := hgood l (List.mem_cons_self l g)
    have ih' := ih (fun x hx => hgood x (List.mem_cons_of_mem l hx))
    cases hpl : parseUVDELine l with
    | error e' => rw [hpl] at hl; simp [Except.isOk, Except.toBool] at hl
    | ok out =>
      simp only [List.cons_append, processLines, hpl]
      rw [show g.append (bad :: rest) = g ++ bad :: rest from rfl, ih']
      simp [goodOutput, List.filterMap_cons, Except.toOption, hpl]

end ParseUVDESeq

namespace ParseKucabCompendium

/-! ## ParseKucabCompendium.py

Embedding of parseKucabCompendium (lines 8-85).  The external sort subprocess
of lines 83-85 is out of scope. -/

/-- Modelled from the spec: the DNA alphabet.  The helpers isPurine and
reverseCompliment are imported from UsefulBioinformaticsFunctions, which is
not part of this repository's sources; they are modelled with their standard
meanings (a purine is A or G; the reverse complement reverses the sequence
and complements each base) over the four-letter DNA alphabet implied by the
spec's data model. -/
inductive DNABase
  | A
  | C
  | G
  | T
deriving DecidableEq, Repr

def isPurine : DNABase → Bool
  | .A => true
  | .G => true
  | _ => false

def complementBase : DNABase → DNABase
  | .A => .T
  | .T => .A
  | .C => .G
  | .G => .C

def reverseCompliment (l : List DNABase) : List DNABase :=
  (l.map complementBase).reverse

/-- One data line of the Kucab substitutions file, holding the tab-separated
fields the script uses (indices 15, 4, 5, 6, 7, 13, 14).  The position field
is represented already converted to an integer and the base fields as DNA
bases; the remaining columns are never read. -/
structure KucabLine where
  designation : String
  chromosome : String
  startPos1Base : Int
  mutatedFrom : DNABase
  mutatedTo : DNABase
  preContext : DNABase
  postContext : DNABase
deriving DecidableEq, Repr

/-- Embeds the tuple of lines 25-26.  Note the Python source has no comma
between "MSM0.103" and "MSM0.14", so the two adjacent string literals
concatenate into the single element "MSM0.103MSM0.14" and the tuple has 13
elements, not 14. -/
def PAHDesignations : List String :=
  ["MSM0.54", "MSM0.26", "MSM0.92", "MSM0.2", "MSM0.42", "MSM0.74", "MSM0.103MSM0.14",
   "MSM0.82", "MSM0.130", "MSM0.12", "MSM0.132", "MSM0.13", "MSM0.96"]

/-- Embeds the tuple of line 28. -/
def LungCancerSpecificDesignations : List String :=
  ["MSM0.26", "MSM0.92", "MSM0.2", "MSM0.103", "MSM0.14"]

/-- Embeds lines 31-33. -/
def relevantDesignations (includeAllPAHs : Bool) : List String :=
  if includeAllPAHs then PAHDesignations else LungCancerSpecificDesignations

/-- One line written to the trinuc-context bed output (line 79-80). -/
structure TrinucBedRecord where
  chromosome : String
  startPos0Base : Int
  startPos1Base : Int
  trinucContext : List DNABase
  mutationFrom : DNABase
  mutationTo : DNABase
  strand : String
deriving DecidableEq, Repr

/-- Embeds lines 55-80, the processing of one data line: skip the line unless
its designation is relevant; otherwise build the bed record, flipping the
mutation, context and strand when the reference base is a purine.  The
reverse complement of the single-base mutation strings of line 71 is the
complement of the base. -/
def processKucabLine (includeAllPAHs : Bool) (l : KucabLine) : Option TrinucBedRecord :=
  if !((relevantDesignations includeAllPAHs).contains l.designation) then none
  else if isPurine l.mutatedFrom then
    some { chromosome := "chr" ++ l.chromosome,
           startPos0Base := l.startPos1Base - 1,
           startPos1Base := l.startPos1Base,
           trinucContext := reverseCompliment [l.preContext, l.mutatedFrom, l.postContext],
           mutationFrom := complementBase l.mutatedFrom,
           mutationTo := complementBase l.mutatedTo,
           strand := "-" }
  else
    some { chromosome := "chr" ++ l.chromosome,
           startPos0Base := l.startPos1Base - 1,
           startPos1Base := l.startPos1Base,
           trinucContext := [l.preContext, l.mutatedFrom, l.postContext],
           mutationFrom := l.mutatedFrom,
           mutationTo := l.mutatedTo,
           strand := "+" }

/-- Failure mode of lines 14-15: a path that does not end in "final.txt". -/
inductive KucabError
  | inputShape
deriving DecidableEq, Repr

/-- Embeds parseKucabCompendium for one input file: the "final.txt" suffix
check on the full path (lines 14-15) runs before the file is opened; the
first line of the file is the skipped header (firstLineFlag, lines 39-45). -/
def parseKucabFile (path : String) (includeAllPAHs : Bool) (lines : List KucabLine) :
    Except KucabError (List TrinucBedRecord) :=
  if !(strEndsWith path "final.txt") then .error .inputShape
  else .ok ((lines.drop 1).filterMap (processKucabLine includeAllPAHs))

end ParseKucabCompendium

namespace StratifyNucleosomeMap

/-! ## File traffic of stratifyNucleosomeMap (lines 39-92)

Paths are modelled as lists of components; os.path.dirname drops the last
component, os.path.basename takes it, os.path.join appends. -/

abbrev Path := List String

def dirNameOf (p : Path) : Path := p.dropLast

def baseNameOf (p : Path) : String := p.getLastD ""

/-- Embeds line 49: the original map file is named after its directory. -/
def originalNucMapFilePath (nucleosomeMapDir : Path) : Path :=
  nucleosomeMapDir ++ [baseNameOf nucleosomeMapDir ++ ".bed"]

/-- Embeds line 51: the stratified map file is named after its directory. -/
def stratifiedNucMapFilePath (stratifiedNucMapDir : Path) : Path :=
  stratifiedNucMapDir ++ [baseNameOf stratifiedNucMapDir ++ ".bed"]

/-- Embeds line 52. -/
def stratificationConditionsFilePath (stratifiedNucMapDir : Path) : Path :=
  stratifiedNucMapDir ++ ["stratification_conditions.txt"]

/-- Embeds lines 55-56. -/
def intermediateDir (stratifiedNucMapDir : Path) : Path :=
  stratifiedNucMapDir ++ ["intermediate_files"]

def encompassmentCountsFilePath (stratifiedNucMapDir : Path) : Path :=
  intermediateDir stratifiedNucMapDir
    ++ [baseNameOf stratifiedNucMapDir ++ "_encompassment_counts.tsv"]

inductive FileEvent
  | mkdirEv (p : Path)
  | readEv (p : Path)
  | writeEv (p : Path)
deriving DecidableEq, Repr

/-- Failure mode of the assert on lines 43-44. -/
inductive StratError
  | sameDirAssert (f : Path)
deriving DecidableEq, Repr

/-- File operations of one loop iteration, in program order: checkDirs on the
intermediate directory (line 57), the counter reading both inputs and writing
the counts file (lines 59-61), re-reading the counts file (lines 65-70),
re-reading the original map while writing the stratified map (lines 74-87),
and writing the conditions file (lines 90-92). -/
def iterationEvents (nucleosomeMapDir : Path) (f : Path) : List FileEvent :=
  [.mkdirEv (intermediateDir (dirNameOf f)),
   .readEv (originalNucMapFilePath nucleosomeMapDir),
   .readEv f,
   .writeEv (encompassmentCountsFilePath (dirNameOf f)),
   .readEv (encompassmentCountsFilePath (dirNameOf f)),
   .readEv (originalNucMapFilePath nucleosomeMapDir),
   .writeEv (stratifiedNucMapFilePath (dirNameOf f)),
   .writeEv (stratificationConditionsFilePath (dirNameOf f))]

/-- Embeds the for loop of lines 41-92: each iteration first asserts that the
stratifying-features file does not live in the nucleosome-map directory and
halts the run when it does; otherwise the iteration's file operations run. -/
def stratifyTrace (nucleosomeMapDir : Path) :
    List Path → List FileEvent × Option StratError
  | [] => ([], none)
  | f :: rest =>
    if nucleosomeMapDir = dirNameOf f then ([], some (.sameDirAssert f))
    else
      (iterationEvents nucleosomeMapDir f ++ (stratifyTrace nucleosomeMapDir rest).1,
       (stratifyTrace nucleosomeMapDir rest).2)

def strLast (s : String) : Option Char := s.data.getLast?

theorem strLast_append (s t : String) (h : t.data ≠ []) : strLast (s ++ t) = strLast t := by
  unfold strLast
  rw [String.data_append]
  exact List.getLast?_append_of_ne_nil _ h

theorem append_singleton_inj {α : Type} {d₁ d₂ : List α} {n₁ n₂ : α}
    (h : d₁ ++ [n₁] = d₂ ++ [n₂]) : d₁ = d₂ ∧ n₁ = n₂ := by
  constructor
  · have := congrArg List.dropLast h
    simpa using this
  · have := congrArg List.getLast? h
    simpa using this

theorem bed_ne_tsv (a b : String) : a ++ ".bed" ≠ b ++ "_encompassment_counts.tsv" := by
  intro h
  have h1 : strLast (a ++ ".bed") = some 'd' := by
    rw [strLast_append a ".bed" (by decide)]; rfl
  have h2 : strLast (b ++ "_encompassment_counts.tsv") = some 'v' := by
    rw [strLast_append b "_encompassment_counts.tsv" (by decide)]; rfl
  rw [h, h2] at h1
  exact absurd (Option.some.inj h1) (by decide)

theorem bed_ne_conditions (a : String) : a ++ ".bed" ≠ "stratification_conditions.txt" := by
  intro h
  have h1 : strLast (a ++ ".bed") = some 'd' := by
    rw [strLast_append a ".bed" (by decide)]; rfl
  rw [h] at h1
  have h2 : strLast "stratification_conditions.txt" = some 't' := by rfl
  rw [h2] at h1
  exact absurd (Option.some.inj h1) (by decide)

/-- No write issued by an iteration whose stratifying path passed the assert
can target the original nucleosome map file. -/
theorem iteration_writes_ne_original (nucleosomeMapDir : Path) (f : Path)
    (hne : nucleosomeMapDir ≠ dirNameOf f) (p : Path)
    (hmem : FileEvent.writeEv p ∈ iterationEvents nucleosomeMapDir f) :
    p ≠ originalNucMapFilePath nucleosomeMapDir := by
  intro heq
  simp only [iterationEvents, List.mem_cons, List.not_mem_nil, or_false] at hmem
  rcases hmem with h | h | h | h | h | h | h | h
  all_goals first
    | exact FileEvent.noConfusion h
    | skip
  · have h' : p = encompassmentCountsFilePath (dirNameOf f) := (FileEvent.writeEv.inj h)
    rw [heq] at h'
    unfold originalNucMapFilePath encompassmentCountsFilePath intermediateDir at h'
    obtain ⟨_, hlast⟩ := append_singleton_inj h'.symm
    exact bed_ne_tsv (baseNameOf nucleosomeMapDir) (baseNameOf (dirNameOf f)) hlast.symm
  · have h' : p = stratifiedNucMapFilePath (dirNameOf f) := (FileEvent.writeEv.inj h)
    rw [heq] at h'
    unfold originalNucMapFilePath stratifiedNucMapFilePath at h'
    obtain ⟨hdir, _⟩ := append_singleton_inj h'
    exact hne hdir
  · have h' : p = stratificationConditionsFilePath (dirNameOf f) := (FileEvent.writeEv.inj h)
    rw [heq] at h'
    unfold originalNucMapFilePath stratificationConditionsFilePath at h'
    obtain ⟨_, hlast⟩ := append_singleton_inj h'
    exact bed_ne_conditions (baseNameOf nucleosomeMapDir) hlast

/-- Over a whole run, no write event ever targets the original map file. -/
theorem stratifyTrace_no_write_to_original (nucleosomeMapDir : Path) :
    ∀ (paths : List Path) (p : Path),
      FileEvent.writeEv p ∈ (stratifyTrace nucleosomeMapDir paths).1 →
      p ≠ originalNucMapFilePath nucleosomeMapDir := by
  intro paths
  induction paths with
  | nil => intro p hp; simp [stratifyTrace] at hp
  | cons f rest ih =>
    intro p hp
    by_cases hd : nucleosomeMapDir = dirNameOf f
    · simp [stratifyTrace, hd] at hp
    · simp only [stratifyTrace, if_neg hd, List.mem_append] at hp
      rcases hp with hp | hp
      · exact iteration_writes_ne_original nucleosomeMapDir f hd p hp
      · exact ih p hp

/-- The run halts at the first offending stratifying path, before any file
operation of that iteration; only the earlier, non-offending iterations have
run. -/
theorem stratifyTrace_halts_at_offender (nucleosomeMapDir : Path) :
    ∀ (pre : List Path) (f : Path) (rest : List Path),
      (∀ g ∈ pre, nucleosomeMapDir ≠ dirNameOf g) →
      nucleosomeMapDir = dirNameOf f →
      stratifyTrace nucleosomeMapDir (pre ++ f :: rest)
        = ((pre.map (iterationEvents nucleosomeMapDir)).flatten,
           some (.sameDirAssert f)) := by
  intro pre
  induction pre with
  | nil =>
    intro f rest _ hf
    simp [stratifyTrace, hf]
  | cons g pre' ih =>
    intro f rest hpre hf
    have hg : nucleosomeMapDir ≠ dirNameOf g := hpre g (List.mem_cons_self g pre')
    have ih' := ih f rest (fun x hx => hpre x (List.mem_cons_of_mem g hx)) hf
    simp only [List.cons_append, stratifyTrace, if_neg hg, List.append_eq, ih',
      List.map_cons, List.flatten_cons]

end StratifyNucleosomeMap

namespace RunAnalysisSuite

/-! ## RunAnalysisSuite.py

Embedding of runAnalysisSuite (lines 31-95) as a trace-producing function:
the result is the list of pipeline side effects performed, in order, paired
with the error (a failed assert or raised ValueError), if any, that aborted
the run.  The collaborating stages (expandContext, the counting and
background scripts) are opaque: only their invocation is recorded.
getContext(path, True) is modelled by an oracle returning the context number
parsed from the file name (none for a malformed name). -/

inductive SuiteEvent
  | expandContextEv (path : String)
  | countMutationsEv
  | genMutationBackgroundEv
  | genNucleosomeBackgroundEv
  | normalizeEv
  | normalizeCustomEv
deriving DecidableEq, Repr

inductive SuiteError
  | noRadius
  | noInputFiles
  | badNormalizationString
  | malformedFileName (p : String)
  | mixedContext (p : String)
  | weirdContext (p : String)
deriving DecidableEq, Repr

/-- Embeds lines 42-50: the normalization method string to context number. -/
def normalizationMethodNum : String → Except SuiteError (Option Int)
  | "Singlenuc/Dinuc" => .ok (some 1)
  | "Trinuc/Quadrunuc" => .ok (some 3)
  | "Pentanuc/Hexanuc" => .ok (some 5)
  | "No Normalization" => .ok none
  | "Custom Background" => .ok none
  | _ => .error .badNormalizationString

/-- Embeds the expansion loop of lines 59-73: each mutation file's context is
checked (asserts of lines 66-68) and the file is expanded when its context is
lower than required.  Files expanded before a later file fails keep their
expandContext invocation in the trace. -/
def expandLoop (contextOf : String → Option Int) (expandContextFn : String → Int → List String)
    (n : Int) : List String → (List String × List SuiteEvent) × Option SuiteError
  | [] => (([], []), none)
  | p :: rest =>
    match contextOf p with
    | none => (([], []), some (.malformedFileName p))
    | some c =>
      if c = 0 then (([], []), some (.mixedContext p))
      else if c = -1 then (([], []), some (.weirdContext p))
      else if c < n then
        ((expandContextFn p n ++ (expandLoop contextOf expandContextFn n rest).1.1,
          .expandContextEv p :: (expandLoop contextOf expandContextFn n rest).1.2),
         (expandLoop contextOf expandContextFn n rest).2)
      else
        ((p :: (expandLoop contextOf expandContextFn n rest).1.1,
          (expandLoop contextOf expandContextFn n rest).1.2),
         (expandLoop contextOf expandContextFn n rest).2)

/-- Embeds runAnalysisSuite: the radius check of lines 35-36 runs first, then
the input-file assert of line 39, the normalization-string conversion, the
context expansion loop, and the counting and normalization stages of lines
77-95 (countNucleosomePositionMutations, then for sequence-context
normalization generateMutationBackground, generateNucleosomeMutationBackground
and normalizeCounts, or normalizeCounts with a custom background). -/
def runAnalysisSuiteT (mutationFilePaths : List String) (normalizationMethod : String)
    (useSingleNucRadius : Bool) (useNucGroupRadius : Bool)
    (contextOf : String → Option Int) (expandContextFn : String → Int → List String) :
    List SuiteEvent × Option SuiteError :=
  if !useNucGroupRadius && !useSingleNucRadius then ([], some .noRadius)
  else if mutationFilePaths.length = 0 then ([], some .noInputFiles)
  else
    match normalizationMethodNum normalizationMethod with
    | .error e => ([], some e)
    | .ok none =>
      if normalizationMethod = "Custom Background" then
        ([.countMutationsEv, .normalizeCustomEv], none)
      else ([.countMutationsEv], none)
    | .ok (some n) =>
      match (expandLoop contextOf expandContextFn n mutationFilePaths).2 with
      | some e => ((expandLoop contextOf expandContextFn n mutationFilePaths).1.2, some e)
      | none =>
        ((expandLoop contextOf expandContextFn n mutationFilePaths).1.2
           ++ [.countMutationsEv, .genMutationBackgroundEv,
               .genNucleosomeBackgroundEv, .normalizeEv], none)

/-- Failure mode of the assert on line 135 of parseArgs. -/
inductive ParseArgsError
  | noBackgroundForGeneration
deriving DecidableEq, Repr

/-- Embeds lines 122-135 of parseArgs: the normalization method, the custom
background directory, and whether generateCustomBackground is invoked, as
decided from the context_normalization and background arguments.  The assert
"Background generation requested, but no background given" is only reached
when no context normalization is selected and no background is given. -/
def determineNormalization (contextNormalization : Option Int) (background : Option String)
    (generateBackgroundImmediately : Bool) (isDir : String → Bool)
    (dirnameOfS : String → String) :
    Except ParseArgsError (String × Option String × Bool) :=
  if contextNormalization = some 1 ∨ contextNormalization = some 2 then
    .ok ("Singlenuc/Dinuc", none, false)
  else if contextNormalization = some 3 ∨ contextNormalization = some 4 then
    .ok ("Trinuc/Quadrunuc", none, false)
  else if contextNormalization = some 5 ∨ contextNormalization = some 6 then
    .ok ("Pentanuc/Hexanuc", none, false)
  else
    match background with
    | some b =>
      .ok ("Custom Background", some (if isDir b then b else dirnameOfS b),
           generateBackgroundImmediately)
    | none =>
      if generateBackgroundImmediately then .error .noBackgroundForGeneration
      else .ok ("No Normalization", none, false)

/-- The expansion loop only ever emits expandContext events. -/
theorem expandLoop_events_expand (contextOf : String → Option Int)
    (expandContextFn : String → Int → List String) (n : Int) :
    ∀ (paths : List String) (ev : SuiteEvent),
      ev ∈ (expandLoop contextOf expandContextFn n paths).1.2 →
      ∃ q, ev = .expandContextEv q := by
  intro paths
  induction paths with
  | nil => intro ev hv; simp [expandLoop] at hv
  | cons p rest ih =>
    intro ev hv
    simp only [expandLoop] at hv
    cases hc : contextOf p with
    | none => rw [hc] at hv; simp at hv
    | some c =>
      rw [hc] at hv
      by_cases h0 : c = 0
      · simp [h0] at hv
      · by_cases h1 : c = -1
        · simp [h0, h1] at hv
        · by_cases h2 : c < n
          · simp only [if_neg h0, if_neg h1, if_pos h2, List.mem_cons] at hv
            rcases hv with hv | hv
            · exact ⟨p, hv⟩
            · exact ih ev hv
          · simp only [if_neg h0, if_neg h1, if_neg h2] at hv
            exact ih ev hv

/-- A mutation file with mixed or undeterminable context makes the expansion
loop fail with a configuration error. -/
theorem expandLoop_fails_on_bad_context (contextOf : String → Option Int)
    (expandContextFn : String → Int → List String) (n : Int) :
    ∀ (paths : List String) (p : String), p ∈ paths →
      (contextOf p = none ∨ contextOf p = some 0) →
      ∃ q, (expandLoop contextOf expandContextFn n paths).2 = some (.malformedFileName q)
        ∨ (expandLoop contextOf expandContextFn n paths).2 = some (.mixedContext q)
        ∨ (expandLoop contextOf expandContextFn n paths).2 = some (.weirdContext q) := by
  intro paths
  induction paths with
  | nil => intro p hp _; exact absurd hp (List.not_mem_nil p)
  | cons x rest ih =>
    intro p hp hbad
    cases hc : contextOf x with
    | none => exact ⟨x, Or.inl (by simp [expandLoop, hc])⟩
    | some c =>
      by_cases h0 : c = 0
      · exact ⟨x, Or.inr (Or.inl (by simp [expandLoop, hc, h0]))⟩
      · by_cases h1 : c = -1
        · exact ⟨x, Or.inr (Or.inr (by simp [expandLoop, hc, h0, h1]))⟩
        · have hpx : p ≠ x := by
            intro he
            subst he
            rw [hc] at hbad
            rcases hbad with hb | hb
            · exact Option.noConfusion hb
            · exact h0 (Option.some.inj hb)
          have hp' : p ∈ rest := by
            rcases List.mem_cons.mp hp with h | h
            · exact absurd h hpx
            · exact h
          obtain ⟨q, hq⟩ := ih p hp' hbad
          refine ⟨q, ?_⟩
          by_cases h2 : c < n
          · simpa [expandLoop, hc, h0, h1, h2] using hq
          · simpa [expandLoop, hc, h0, h1, h2] using hq

end RunAnalysisSuite

/-! ## Claims -/

/-- Bridge between the stratifier's map records and the counter's encompassed
points: the first file handed to the NucleosomeStratifier is the original
nucleosome map itself, so its records are the encompassed stream. -/
def pointOfEntry (r : StratifyNucleosomeMap.NucMapEntry) : CountThisInThat.EncompassedPoint :=
  ⟨r.chrom, r.startPos, r.strand⟩

/-- C1 counterexample.  Under the claim's hypothesis alone (both inputs share
the same sort order) the rewrite pass can emit a record whose count is zero:
with two records at the same (chromosome, position) on opposite strands and
counts 0 and 1, the forward cursor matches the strand-blind matchesBedEntry
against the first record and copies it, although only the second record's
count is nonzero. -/
theorem C1_same_position_counterexample :
    StratifyNucleosomeMap.rewriteLoop
      (StratifyNucleosomeMap.retainedIDs (StratifyNucleosomeMap.countsRowsOf
        [⟨"chr1", 100, "+", "r0"⟩, ⟨"chr1", 100, "-", "r1"⟩] [0, 1]))
      [⟨"chr1", 100, "+", "r0"⟩, ⟨"chr1", 100, "-", "r1"⟩]
      = .ok [⟨"chr1", 100, "+", "r0"⟩]
    ∧ StratifyNucleosomeMap.retainedEntries
        [⟨"chr1", 100, "+", "r0"⟩, ⟨"chr1", 100, "-", "r1"⟩] [0, 1]
      = [⟨"chr1", 100, "-", "r1"⟩]
    ∧ (⟨"chr1", 100, "+", "r0"⟩ : StratifyNucleosomeMap.NucMapEntry)
      ≠ ⟨"chr1", 100, "-", "r1"⟩ :=
  ⟨rfl, rfl, by decide⟩

/-- C1 (amended).  For every run of the stratification rewrite pass where the
original nucleosome-map file and the overlap-count output share the same sort
order, and additionally no two records of the map share the same
(chromosome, position) — the data model's uniqueness invariant —
stratifyNucleosomeMap writes to the stratified map exactly the original full
records whose overlap count is nonzero, copied verbatim, in their original
file order; records with count 0 are omitted. -/
theorem C1_rewrite_pass_reproduces_nonzero_records
    (records : List StratifyNucleosomeMap.NucMapEntry) (counts : List Nat)
    (hlen : counts.length = records.length)
    (huniq : List.Pairwise
      (fun a b => StratifyNucleosomeMap.posKey a ≠ StratifyNucleosomeMap.posKey b) records) :
    StratifyNucleosomeMap.rewriteLoop
      (StratifyNucleosomeMap.retainedIDs (StratifyNucleosomeMap.countsRowsOf records counts))
      records
      = .ok (StratifyNucleosomeMap.retainedEntries records counts) :=
  StratifyNucleosomeMap.rewriteLoop_correct records counts hlen huniq

/-- Witness for C1: a concrete three-record map with counts 1, 0, 2 emits
exactly the first and third records, in order. -/
theorem C1_rewrite_pass_reproduces_nonzero_records_witness :
    StratifyNucleosomeMap.rewriteLoop
      (StratifyNucleosomeMap.retainedIDs (StratifyNucleosomeMap.countsRowsOf
        [⟨"chr1", 100, "+", "rA"⟩, ⟨"chr1", 200, "+", "rB"⟩, ⟨"chr2", 50, "-", "rC"⟩]
        [1, 0, 2]))
      [⟨"chr1", 100, "+", "rA"⟩, ⟨"chr1", 200, "+", "rB"⟩, ⟨"chr2", 50, "-", "rC"⟩]
      = .ok (StratifyNucleosomeMap.retainedEntries
        [⟨"chr1", 100, "+", "rA"⟩, ⟨"chr1", 200, "+", "rB"⟩, ⟨"chr2", 50, "-", "rC"⟩]
        [1, 0, 2]) :=
  C1_rewrite_pass_reproduces_nonzero_records _ _ (by decide) (by decide)

/-- C2.  For every pair of pre-sorted encompassing/encompassed inputs, the
overlap count produced for each encompassed point equals the brute-force
number of encompassing intervals [start, end] on the same chromosome with
start ≤ point ≤ end; the bounds are inclusive (a point exactly at start or at
end is counted, a point one unit outside is not), and an interval on one
chromosome never counts toward a point on a different chromosome. -/
theorem C2_overlap_counts_equal_brute_force :
    (∀ (intervals : List CountThisInThat.EncompassingInterval)
       (points : List CountThisInThat.EncompassedPoint),
       List.Pairwise CountThisInThat.intervalLE intervals →
       List.Pairwise CountThisInThat.pointLE points →
       CountThisInThat.sweepCounts intervals points
         = points.map (CountThisInThat.bruteCount intervals))
    ∧ (∀ (c strand : String) (s e : Int), s ≤ e →
       CountThisInThat.containsPoint ⟨c, s, e⟩ ⟨c, s, strand⟩ = true
       ∧ CountThisInThat.containsPoint ⟨c, s, e⟩ ⟨c, e, strand⟩ = true
       ∧ CountThisInThat.containsPoint ⟨c, s, e⟩ ⟨c, s - 1, strand⟩ = false
       ∧ CountThisInThat.containsPoint ⟨c, s, e⟩ ⟨c, e + 1, strand⟩ = false)
    ∧ (∀ (c₁ c₂ strand : String) (s e pos : Int), c₁ ≠ c₂ →
       CountThisInThat.containsPoint ⟨c₁, s, e⟩ ⟨c₂, pos, strand⟩ = false) := by
  refine ⟨CountThisInThat.sweep_eq_brute, ?_, ?_⟩
  · intro c strand s e hse
    refine ⟨?_, ?_, ?_, ?_⟩ <;>
      simp [CountThisInThat.containsPoint] <;> omega
  · intro c₁ c₂ strand s e pos hne
    simp [CountThisInThat.containsPoint]
    intro h
    exact absurd h hne

/-- Witness for C2: spec scenario A, with a boundary check and a
chromosome-isolation check. -/
theorem C2_overlap_counts_equal_brute_force_witness :
    CountThisInThat.sweepCounts [⟨"chr1", 100, 200⟩]
        [⟨"chr1", 150, "+"⟩, ⟨"chr1", 250, "+"⟩]
      = List.map (CountThisInThat.bruteCount [⟨"chr1", 100, 200⟩])
        [⟨"chr1", 150, "+"⟩, ⟨"chr1", 250, "+"⟩]
    ∧ CountThisInThat.containsPoint ⟨"chr1", 100, 200⟩ ⟨"chr1", 100, "+"⟩ = true
    ∧ CountThisInThat.containsPoint ⟨"chr1", 100, 200⟩ ⟨"chr1", 99, "+"⟩ = false
    ∧ CountThisInThat.containsPoint ⟨"chr1", 100, 200⟩ ⟨"chr2", 150, "+"⟩ = false :=
  ⟨C2_overlap_counts_equal_brute_force.1 _ _ (by decide) (by decide),
   (C2_overlap_counts_equal_brute_force.2.1 "chr1" "+" 100 200 (by decide)).1,
   (C2_overlap_counts_equal_brute_force.2.1 "chr1" "+" 100 200 (by decide)).2.2.1,
   C2_overlap_counts_equal_brute_force.2.2 "chr1" "chr2" "+" 100 200 150 (by decide)⟩

/-- C4 counterexample.  When the original file is exhausted by the previous
identity's match, the next iteration's unconditional readline returns the
empty string and matchesBedEntry crashes unpacking "".split()[:2] (a
ValueError), not the match-not-found assert: here identity (chr1, 100)
matches the single record and identity (chr2, 5) then hits end of file at the
first read. -/
theorem C4_exhausted_at_first_read_counterexample :
    StratifyNucleosomeMap.rewriteLoop
      [⟨"chr1", 100, "+"⟩, ⟨"chr2", 5, "+"⟩] [⟨"chr1", 100, "+", "x"⟩]
      = .error (.emptyLineUnpack ⟨"chr2", 5, "+"⟩)
    ∧ StratifyNucleosomeMap.RewriteError.emptyLineUnpack ⟨"chr2", 5, "+"⟩
      ≠ StratifyNucleosomeMap.RewriteError.matchNotFound ⟨"chr2", 5, "+"⟩ :=
  ⟨rfl, by decide⟩

/-- C4 (amended).  For every retained identity, if the forward-only cursor
reaches end of file before finding a line whose (chromosome, position)
matches that identity, stratifyNucleosomeMap fails rather than silently
skipping it: with the match-not-found assertion naming the identity whenever
at least one line could still be read for that identity, and with a
ValueError from unpacking the empty readline result when the file was already
exhausted when the identity's first read happened. -/
theorem C4_cursor_exhaustion_fails
    (id : StratifyNucleosomeMap.NucPosID) (ids : List StratifyNucleosomeMap.NucPosID)
    (records : List StratifyNucleosomeMap.NucMapEntry)
    (hno : ∀ r ∈ records,
      StratifyNucleosomeMap.matchesBedEntry id.chrom id.startPos r = false) :
    StratifyNucleosomeMap.rewriteLoop (id :: ids) records
      = .error (if records.isEmpty then .emptyLineUnpack id else .matchNotFound id) :=
  StratifyNucleosomeMap.rewriteLoop_no_match id ids records hno

/-- Witness for C4: a never-matching identity over a nonempty file yields the
match-not-found error naming that identity. -/
theorem C4_cursor_exhaustion_fails_witness :
    StratifyNucleosomeMap.rewriteLoop [⟨"chr2", 5, "+"⟩] [⟨"chr1", 100, "+", "x"⟩]
      = .error (if ([⟨"chr1", 100, "+", "x"⟩] :
          List StratifyNucleosomeMap.NucMapEntry).isEmpty
        then .emptyLineUnpack ⟨"chr2", 5, "+"⟩ else .matchNotFound ⟨"chr2", 5, "+"⟩) :=
  C4_cursor_exhaustion_fails ⟨"chr2", 5, "+"⟩ [] _ (by decide)

/-- The overlap count depends only on the chromosome and the position of the
encompassed point, never on its strand. -/
theorem bruteCount_key_congr (intervals : List CountThisInThat.EncompassingInterval)
    (p q : CountThisInThat.EncompassedPoint)
    (hc : p.chrom = q.chrom) (hp : p.pos = q.pos) :
    CountThisInThat.bruteCount intervals p = CountThisInThat.bruteCount intervals q := by
  unfold CountThisInThat.bruteCount
  have he : (fun i => CountThisInThat.containsPoint i p)
      = (fun i => CountThisInThat.containsPoint i q) := by
    funext i
    simp only [CountThisInThat.containsPoint, hc, hp]
  rw [he]

theorem mem_zip_map_self {α β : Type} (f : α → β) :
    ∀ (l : List α) (x : α × β), x ∈ l.zip (l.map f) → x.2 = f x.1 := by
  intro l
  induction l with
  | nil => intro x hx; simp at hx
  | cons a as ih =>
    intro x hx
    simp only [List.map_cons, List.zip_cons_cons, List.mem_cons] at hx
    rcases hx with hx | hx
    · rw [hx]
    · exact ih x hx

namespace StratifyNucleosomeMap

theorem mem_retainedIDs_countsRowsOf_count {id : NucPosID} {records : List NucMapEntry}
    {counts : List Nat} (h : id ∈ retainedIDs (countsRowsOf records counts)) :
    ∃ rc ∈ records.zip counts, id = idOf rc.1 ∧ rc.2 ≠ 0 := by
  simp only [retainedIDs, List.mem_map, List.mem_filter] at h
  obtain ⟨row, ⟨hrow, hnz⟩, hid⟩ := h
  simp only [countsRowsOf, List.mem_map] at hrow
  obtain ⟨rc, hrc, hrow'⟩ := hrow
  refine ⟨rc, hrc, ?_, ?_⟩
  · rw [← hid, ← hrow']
  · intro h0
    rw [← hrow'] at hnz
    simp [h0] at hnz

/-- Rewrite pass correctness for position-determined counts: when records that
share a (chromosome, position) always carry the same count — as holds for the
counter's output, which depends only on chromosome and position — exactly the
records with nonzero count are copied, in file order. -/
theorem rewriteLoop_correct_posDetermined :
    ∀ (records : List NucMapEntry) (counts : List Nat),
      counts.length = records.length →
      (∀ rc₁ ∈ records.zip counts, ∀ rc₂ ∈ records.zip counts,
        posKey rc₁.1 = posKey rc₂.1 → rc₁.2 = rc₂.2) →
      rewriteLoop (retainedIDs (countsRowsOf records counts)) records
        = .ok (retainedEntries records counts) := by
  intro records
  induction records with
  | nil =>
    intro counts hlen _
    have : counts = [] := List.length_eq_zero.mp hlen
    subst this
    rfl
  | cons r rs ih =>
    intro counts hlen hkc
    cases counts with
    | nil => simp at hlen
    | cons c cs =>
      have hlen' : cs.length = rs.length := by simpa using hlen
      have hzip : (r :: rs).zip (c :: cs) = (r, c) :: rs.zip cs := rfl
      have hkc' : ∀ rc₁ ∈ rs.zip cs, ∀ rc₂ ∈ rs.zip cs,
          posKey rc₁.1 = posKey rc₂.1 → rc₁.2 = rc₂.2 := by
        intro rc₁ h₁ rc₂ h₂ hk
        exact hkc rc₁ (by rw [hzip]; exact List.mem_cons_of_mem _ h₁)
          rc₂ (by rw [hzip]; exact List.mem_cons_of_mem _ h₂) hk
      have hrows : countsRowsOf (r :: rs) (c :: cs) = (idOf r, c) :: countsRowsOf rs cs := by
        simp [countsRowsOf]
      by_cases hc : c = 0
      · subst hc
        have hret : retainedIDs (countsRowsOf (r :: rs) (0 :: cs))
            = retainedIDs (countsRowsOf rs cs) := by
          rw [hrows]
          simp [retainedIDs]
        have hent : retainedEntries (r :: rs) (0 :: cs) = retainedEntries rs cs := by
          simp [retainedEntries]
        rw [hret, hent]
        apply rewriteLoop_skip _ _ _ _ _ (ih cs hlen' hkc')
        intro id hid
        obtain ⟨rc, hrc, hids, hnz⟩ := mem_retainedIDs_countsRowsOf_count hid
        apply matchesBedEntry_false_of_posKey_ne
        rw [hids]
        show posKey rc.1 ≠ posKey r
        intro hkey
        exact hnz (hkc rc (by rw [hzip]; exact List.mem_cons_of_mem _ hrc)
          (r, 0) (by rw [hzip]; exact List.mem_cons_self _ _) hkey)
      · have hret : retainedIDs (countsRowsOf (r :: rs) (c :: cs))
            = idOf r :: retainedIDs (countsRowsOf rs cs) := by
          rw [hrows]
          simp [retainedIDs, hc]
        have hent : retainedEntries (r :: rs) (c :: cs) = r :: retainedEntries rs cs := by
          simp [retainedEntries, hc]
        rw [hret, hent]
        rw [rewriteLoop_cons_match _ _ _ _ (matchesBedEntry_self r)]
        rw [ih cs hlen' hkc']

end StratifyNucleosomeMap

/-- C3.  For every input containing two encompassed records with identical
(chromosome, position) but different strand, the counter treats them as
distinct identities and produces a separate overlap count for each (one count
per record, at the record's own index, equal to that record's own brute-force
count; records sharing a position receive equal counts since counting ignores
strand), and the rewrite pass, run on the counter's own counts, resolves each
retained identity to its own original record: it reproduces exactly the
records with nonzero count, in file order. -/
theorem C3_strand_distinguishes_identities
    (records : List StratifyNucleosomeMap.NucMapEntry)
    (intervals : List CountThisInThat.EncompassingInterval)
    (i j : Nat) (hi : i < records.length) (hj : j < records.length)
    (hij : i ≠ j)
    (hchrom : records[i].chrom = records[j].chrom)
    (hpos : records[i].startPos = records[j].startPos)
    (hstrand : records[i].strand ≠ records[j].strand)
    (hsi : List.Pairwise CountThisInThat.intervalLE intervals)
    (hsp : List.Pairwise CountThisInThat.pointLE (records.map pointOfEntry)) :
    StratifyNucleosomeMap.idOf records[i] ≠ StratifyNucleosomeMap.idOf records[j]
    ∧ (CountThisInThat.sweepCounts intervals (records.map pointOfEntry)).length
        = records.length
    ∧ (CountThisInThat.sweepCounts intervals (records.map pointOfEntry))[i]?
        = some (CountThisInThat.bruteCount intervals (pointOfEntry records[i]))
    ∧ (CountThisInThat.sweepCounts intervals (records.map pointOfEntry))[j]?
        = some (CountThisInThat.bruteCount intervals (pointOfEntry records[j]))
    ∧ CountThisInThat.bruteCount intervals (pointOfEntry records[i])
        = CountThisInThat.bruteCount intervals (pointOfEntry records[j])
    ∧ StratifyNucleosomeMap.rewriteLoop
        (StratifyNucleosomeMap.retainedIDs (StratifyNucleosomeMap.countsRowsOf records
          (CountThisInThat.sweepCounts intervals (records.map pointOfEntry)))) records
      = .ok (StratifyNucleosomeMap.retainedEntries records
          (CountThisInThat.sweepCounts intervals (records.map pointOfEntry))) := by
  have hsweep := CountThisInThat.sweep_eq_brute intervals (records.map pointOfEntry) hsi hsp
  refine ⟨?_, ?_, ?_, ?_, ?_, ?_⟩
  · intro he
    exact hstrand (congrArg StratifyNucleosomeMap.NucPosID.strand he)
  · rw [hsweep, List.length_map, List.length_map]
  · rw [hsweep, List.getElem?_map, List.getElem?_map, List.getElem?_eq_getElem hi]
    rfl
  · rw [hsweep, List.getElem?_map, List.getElem?_map, List.getElem?_eq_getElem hj]
    rfl
  · exact bruteCount_key_congr intervals _ _ hchrom hpos
  · apply StratifyNucleosomeMap.rewriteLoop_correct_posDetermined
    · rw [hsweep, List.length_map, List.length_map]
    · intro rc₁ h₁ rc₂ h₂ hk
      rw [hsweep, List.map_map] at h₁ h₂
      have e₁ := mem_zip_map_self (CountThisInThat.bruteCount intervals ∘ pointOfEntry)
        records rc₁ h₁
      have e₂ := mem_zip_map_self (CountThisInThat.bruteCount intervals ∘ pointOfEntry)
        records rc₂ h₂
      rw [e₁, e₂]
      have hc' : rc₁.1.chrom = rc₂.1.chrom := congrArg Prod.fst hk
      have hp' : rc₁.1.startPos = rc₂.1.startPos := congrArg Prod.snd hk
      exact bruteCount_key_congr intervals _ _ hc' hp'

/-- Witness for C3: spec scenario B with two records at (chr1, 100) on
opposite strands, both encompassed by one interval; the rewrite pass on the
counter's counts reproduces both records. -/
theorem C3_strand_distinguishes_identities_witness :
    StratifyNucleosomeMap.idOf
        (⟨"chr1", 100, "+", "a"⟩ : StratifyNucleosomeMap.NucMapEntry)
      ≠ StratifyNucleosomeMap.idOf (⟨"chr1", 100, "-", "b"⟩ :
        StratifyNucleosomeMap.NucMapEntry)
    ∧ (CountThisInThat.sweepCounts [⟨"chr1", 50, 150⟩]
        ([⟨"chr1", 100, "+", "a"⟩, ⟨"chr1", 100, "-", "b"⟩].map pointOfEntry)).length = 2
    ∧ StratifyNucleosomeMap.rewriteLoop
        (StratifyNucleosomeMap.retainedIDs (StratifyNucleosomeMap.countsRowsOf
          [⟨"chr1", 100, "+", "a"⟩, ⟨"chr1", 100, "-", "b"⟩]
          (CountThisInThat.sweepCounts [⟨"chr1", 50, 150⟩]
            ([⟨"chr1", 100, "+", "a"⟩, ⟨"chr1", 100, "-", "b"⟩].map pointOfEntry))))
        [⟨"chr1", 100, "+", "a"⟩, ⟨"chr1", 100, "-", "b"⟩]
      = .ok (StratifyNucleosomeMap.retainedEntries
          [⟨"chr1", 100, "+", "a"⟩, ⟨"chr1", 100, "-", "b"⟩]
          (CountThisInThat.sweepCounts [⟨"chr1", 50, 150⟩]
            ([⟨"chr1", 100, "+", "a"⟩, ⟨"chr1", 100, "-", "b"⟩].map pointOfEntry))) := by
  have h := C3_strand_distinguishes_identities
    [⟨"chr1", 100, "+", "a"⟩, ⟨"chr1", 100, "-", "b"⟩] [⟨"chr1", 50, 150⟩]
    0 1 (by decide) (by decide) (by decide) (by decide) (by decide)
    (by decide) (by decide) (by decide)
  exact ⟨h.1, h.2.1, h.2.2.2.2.2⟩

/-- C5 counterexample.  A file whose second line misses the strand column
aborts with the malformed-record error, but the two output lines written for
the first, well-formed line are already in the output file: the abort does
not leave the output empty. -/
theorem C5_partial_output_counterexample :
    (ParseUVDESeq.parseUVDESeqFile "dipy.bed"
      [["chr1", "100", "102", "id0", "NA", "+"], ["chr1", "103", "105", "id1", "NA"]]).2
      = some .missingField
    ∧ (ParseUVDESeq.parseUVDESeqFile "dipy.bed"
      [["chr1", "100", "102", "id0", "NA", "+"], ["chr1", "103", "105", "id1", "NA"]]).1
      ≠ [] := by
  constructor
  · rfl
  · decide

/-- C5 (amended).  For every input file containing a malformed line that is
missing the strand column (too few tab-delimited fields), processing raises a
malformed-record error and aborts the run — no line after the malformed one is
processed — but the lines already written for earlier well-formed records
remain in the partially written output file; the abort does not remove them. -/
theorem C5_malformed_line_aborts
    (fileName : String) (good : List (List String)) (bad : List String)
    (rest : List (List String)) (e : ParseUVDESeq.UVDEError)
    (hsuffix : strEndsWith fileName ".bed" = true)
    (hgood : ∀ l ∈ good, (ParseUVDESeq.parseUVDELine l).isOk = true)
    (hbad : ParseUVDESeq.parseUVDELine bad = .error e) :
    ParseUVDESeq.parseUVDESeqFile fileName (good ++ bad :: rest)
      = (ParseUVDESeq.goodOutput good, some e) := by
  unfold ParseUVDESeq.parseUVDESeqFile
  rw [hsuffix]
  exact ParseUVDESeq.processLines_stops_at_error good bad rest e hgood hbad

/-- Witness for C5: the counterexample file, through the amended theorem. -/
theorem C5_malformed_line_aborts_witness :
    ParseUVDESeq.parseUVDESeqFile "dipy.bed"
      ([["chr1", "100", "102", "id0", "NA", "+"]] ++ ["chr1", "103", "105", "id1", "NA"] :: [])
      = (ParseUVDESeq.goodOutput [["chr1", "100", "102", "id0", "NA", "+"]],
         some .missingField) :=
  C5_malformed_line_aborts "dipy.bed" _ _ [] _ (by decide) (by decide) rfl

/-- C7.  For every input file path with the wrong suffix, the conversion
scripts fail with an input-shape error before reading any data (the result is
the same for every file content): parseKucabCompendium raises when the path
does not end in "final.txt", and parseUVDESeq raises when the file name does
not end in ".bed". -/
theorem C7_wrong_suffix_fails_before_reading :
    (∀ (path : String) (includeAllPAHs : Bool)
       (lines : List ParseKucabCompendium.KucabLine),
       strEndsWith path "final.txt" = false →
       ParseKucabCompendium.parseKucabFile path includeAllPAHs lines = .error .inputShape)
    ∧ (∀ (fileName : String) (lines : List (List String)),
       strEndsWith fileName ".bed" = false →
       ParseUVDESeq.parseUVDESeqFile fileName lines = ([], some .inputShape)) := by
  constructor
  · intro path includeAllPAHs lines h
    unfold ParseKucabCompendium.parseKucabFile
    rw [h]
    rfl
  · intro fileName lines h
    unfold ParseUVDESeq.parseUVDESeqFile
    rw [h]
    rfl

/-- Witness for C7: a ".txt" Kucab path that does not end in "final.txt" and a
UVDE file name that does not end in ".bed", each with nonempty content. -/
theorem C7_wrong_suffix_fails_before_reading_witness :
    ParseKucabCompendium.parseKucabFile "data/subs.txt" true
      [⟨"MSM0.26", "1", 5, .C, .T, .A, .A⟩] = .error .inputShape
    ∧ ParseUVDESeq.parseUVDESeqFile "dipy.bigWig"
      [["chr1", "100", "102", "id0", "NA", "+"]] = ([], some .inputShape) :=
  ⟨C7_wrong_suffix_fails_before_reading.1 "data/subs.txt" true _ (by decide),
   C7_wrong_suffix_fails_before_reading.2 "dipy.bigWig" _ (by decide)⟩

/-- Helper for C6: when the expansion loop fails, the suite run stops with
that error and the trace holds exactly the expansion events so far. -/
theorem runAnalysisSuiteT_expand_error (muts : List String) (nm : String)
    (snr ngr : Bool) (ctxOf : String → Option Int) (ef : String → Int → List String)
    (n : Int) (e : RunAnalysisSuite.SuiteError)
    (hr : (!ngr && !snr) = false) (hlen : ¬ muts.length = 0)
    (hnm : RunAnalysisSuite.normalizationMethodNum nm = .ok (some n))
    (herr : (RunAnalysisSuite.expandLoop ctxOf ef n muts).2 = some e) :
    RunAnalysisSuite.runAnalysisSuiteT muts nm snr ngr ctxOf ef
      = ((RunAnalysisSuite.expandLoop ctxOf ef n muts).1.2, some e) := by
  unfold RunAnalysisSuite.runAnalysisSuiteT
  rw [hr, hnm]
  simp only [Bool.false_eq_true, if_false, if_neg hlen, herr]

/-- C6 counterexample.  With background generation requested
(generate_background_immediately = true) and no background given
(background = None) but a context normalization selected
(context_normalization = 3), parseArgs raises no error — the elif chain never
reaches the background assert and the generation flag is silently dropped —
and the suite then runs to completion without any configuration error. -/
theorem C6_generation_without_background_counterexample :
    RunAnalysisSuite.determineNormalization (some 3) none true (fun _ => false)
        (fun s => s)
      = .ok ("Trinuc/Quadrunuc", none, false)
    ∧ RunAnalysisSuite.runAnalysisSuiteT ["m_trinuc_context_mutations.bed"]
        "Trinuc/Quadrunuc" true false (fun _ => some 3) (fun p _ => [p])
      = ([.countMutationsEv, .genMutationBackgroundEv,
          .genNucleosomeBackgroundEv, .normalizeEv], none) :=
  ⟨rfl, rfl⟩

/-- C6 (amended).  runAnalysisSuite fails with the no-radius error before any
counting or file processing when neither radius is selected; parseArgs fails
with the no-background error when background generation is requested without
a background, provided no context normalization is selected (otherwise the
flag is silently ignored); and a mutation file with mixed (0) or
undeterminable context under sequence-context normalization raises a
configuration error before the counting stage, though context expansion of
files earlier in the list may already have run. -/
theorem C6_configuration_failures :
    (∀ (muts : List String) (nm : String) (ctxOf : String → Option Int)
       (ef : String → Int → List String),
       RunAnalysisSuite.runAnalysisSuiteT muts nm false false ctxOf ef
         = ([], some .noRadius))
    ∧ (∀ (cn : Option Int) (isDir : String → Bool) (dn : String → String),
       ¬(cn = some 1 ∨ cn = some 2) → ¬(cn = some 3 ∨ cn = some 4) →
       ¬(cn = some 5 ∨ cn = some 6) →
       RunAnalysisSuite.determineNormalization cn none true isDir dn
         = .error .noBackgroundForGeneration)
    ∧ (∀ (muts : List String) (nm : String) (snr ngr : Bool)
       (ctxOf : String → Option Int) (ef : String → Int → List String) (p : String),
       (snr = true ∨ ngr = true) →
       (nm = "Singlenuc/Dinuc" ∨ nm = "Trinuc/Quadrunuc" ∨ nm = "Pentanuc/Hexanuc") →
       p ∈ muts → (ctxOf p = none ∨ ctxOf p = some 0) →
       (∃ q, (RunAnalysisSuite.runAnalysisSuiteT muts nm snr ngr ctxOf ef).2
             = some (.malformedFileName q)
          ∨ (RunAnalysisSuite.runAnalysisSuiteT muts nm snr ngr ctxOf ef).2
             = some (.mixedContext q)
          ∨ (RunAnalysisSuite.runAnalysisSuiteT muts nm snr ngr ctxOf ef).2
             = some (.weirdContext q))
       ∧ RunAnalysisSuite.SuiteEvent.countMutationsEv
           ∉ (RunAnalysisSuite.runAnalysisSuiteT muts nm snr ngr ctxOf ef).1) := by
  refine ⟨?_, ?_, ?_⟩
  · intro muts nm ctxOf ef
    rfl
  · intro cn isDir dn h1 h2 h3
    unfold RunAnalysisSuite.determineNormalization
    rw [if_neg h1, if_neg h2, if_neg h3]
    rfl
  · intro muts nm snr ngr ctxOf ef p hr hnm hp hbad
    have hr' : (!ngr && !snr) = false := by
      rcases hr with h | h <;> subst h <;> simp
    have hlen : ¬ muts.length = 0 := by
      intro h0
      rw [List.length_eq_zero] at h0
      subst h0
      exact absurd hp (List.not_mem_nil p)
    have hn : ∃ n : Int, RunAnalysisSuite.normalizationMethodNum nm = .ok (some n) := by
      rcases hnm with h | h | h <;> subst h
      · exact ⟨1, rfl⟩
      · exact ⟨3, rfl⟩
      · exact ⟨5, rfl⟩
    obtain ⟨n, hn⟩ := hn
    obtain ⟨q, hq⟩ := RunAnalysisSuite.expandLoop_fails_on_bad_context ctxOf ef n muts p hp hbad
    have herr : ∃ e, (RunAnalysisSuite.expandLoop ctxOf ef n muts).2 = some e
        ∧ (e = RunAnalysisSuite.SuiteError.malformedFileName q
           ∨ e = RunAnalysisSuite.SuiteError.mixedContext q
           ∨ e = RunAnalysisSuite.SuiteError.weirdContext q) := by
      rcases hq with h | h | h
      · exact ⟨_, h, Or.inl rfl⟩
      · exact ⟨_, h, Or.inr (Or.inl rfl)⟩
      · exact ⟨_, h, Or.inr (Or.inr rfl)⟩
    obtain ⟨e, he, hcase⟩ := herr
    have hrun := runAnalysisSuiteT_expand_error muts nm snr ngr ctxOf ef n e hr' hlen hn he
    constructor
    · refine ⟨q, ?_⟩
      rw [hrun]
      rcases hcase with h | h | h
      · exact Or.inl (by rw [h])
      · exact Or.inr (Or.inl (by rw [h]))
      · exact Or.inr (Or.inr (by rw [h]))
    · rw [hrun]
      intro hmem
      obtain ⟨q', hq'⟩ := RunAnalysisSuite.expandLoop_events_expand ctxOf ef n muts _ hmem
      exact RunAnalysisSuite.SuiteEvent.noConfusion hq'

/-- Witness for C6: the no-radius error on a concrete configuration, the
no-background error for context_normalization = 7, and a concrete mixed-context
file failing before the counting stage. -/
theorem C6_configuration_failures_witness :
    RunAnalysisSuite.runAnalysisSuiteT ["m.bed"] "Trinuc/Quadrunuc" false false
        (fun _ => some 3) (fun p _ => [p]) = ([], some .noRadius)
    ∧ RunAnalysisSuite.determineNormalization (some 7) none true (fun _ => false)
        (fun s => s) = .error .noBackgroundForGeneration
    ∧ ((∃ q, (RunAnalysisSuite.runAnalysisSuiteT ["mixed.bed"] "Trinuc/Quadrunuc" true false
             (fun _ => some 0) (fun p _ => [p])).2
             = some (.malformedFileName q)
          ∨ (RunAnalysisSuite.runAnalysisSuiteT ["mixed.bed"] "Trinuc/Quadrunuc" true false
             (fun _ => some 0) (fun p _ => [p])).2
             = some (.mixedContext q)
          ∨ (RunAnalysisSuite.runAnalysisSuiteT ["mixed.bed"] "Trinuc/Quadrunuc" true false
             (fun _ => some 0) (fun p _ => [p])).2
             = some (.weirdContext q))
       ∧ RunAnalysisSuite.SuiteEvent.countMutationsEv
           ∉ (RunAnalysisSuite.runAnalysisSuiteT ["mixed.bed"] "Trinuc/Quadrunuc" true false
             (fun _ => some 0) (fun p _ => [p])).1) :=
  ⟨C6_configuration_failures.1 ["m.bed"] "Trinuc/Quadrunuc" (fun _ => some 3) (fun p _ => [p]),
   C6_configuration_failures.2.1 (some 7) (fun _ => false) (fun s => s)
     (by decide) (by decide) (by decide),
   C6_configuration_failures.2.2 ["mixed.bed"] "Trinuc/Quadrunuc" true false
     (fun _ => some 0) (fun p _ => [p]) "mixed.bed" (Or.inl rfl)
     (Or.inr (Or.inl rfl)) (by decide) (Or.inr rfl)⟩

/-- C8 (code bug).  The lung-cancer-specific designations are not a subset of
the designations retained with includeAllPAHs: the Python tuple of lines 25-26
is missing a comma, so "MSM0.103" and "MSM0.14" concatenate into the single
element "MSM0.103MSM0.14"; a line with designation "MSM0.103" (or "MSM0.14")
is written with includeAllPAHs = False but skipped with includeAllPAHs = True. -/
theorem C8_pah_designations_missing_comma :
    ("MSM0.103" ∈ ParseKucabCompendium.LungCancerSpecificDesignations
      ∧ "MSM0.103" ∉ ParseKucabCompendium.PAHDesignations
      ∧ "MSM0.103MSM0.14" ∈ ParseKucabCompendium.PAHDesignations)
    ∧ (ParseKucabCompendium.processKucabLine false
        ⟨"MSM0.103", "1", 1000, .C, .T, .A, .A⟩).isSome = true
    ∧ ParseKucabCompendium.processKucabLine true
        ⟨"MSM0.103", "1", 1000, .C, .T, .A, .A⟩ = none := by
  refine ⟨⟨?_, ?_, ?_⟩, ?_, ?_⟩ <;> decide

theorem isPurine_complementBase (x : ParseKucabCompendium.DNABase) :
    ParseKucabCompendium.isPurine (ParseKucabCompendium.complementBase x)
      = !(ParseKucabCompendium.isPurine x) := by
  cases x <;> rfl

/-- C9.  Every record written by parseKucabCompendium has strand '-' exactly
when the input reference base is a purine, in which case the mutation and the
trinucleotide context are reverse-complemented before writing; consequently
the central base of every emitted trinucleotide context, and the from-base of
every emitted mutation, is a pyrimidine. -/
theorem C9_purine_flip_invariant
    (includeAllPAHs : Bool) (l : ParseKucabCompendium.KucabLine)
    (rec : ParseKucabCompendium.TrinucBedRecord)
    (h : ParseKucabCompendium.processKucabLine includeAllPAHs l = some rec) :
    (rec.strand = "-" ↔ ParseKucabCompendium.isPurine l.mutatedFrom = true)
    ∧ (ParseKucabCompendium.isPurine l.mutatedFrom = true →
        rec.mutationFrom = ParseKucabCompendium.complementBase l.mutatedFrom
        ∧ rec.mutationTo = ParseKucabCompendium.complementBase l.mutatedTo
        ∧ rec.trinucContext = ParseKucabCompendium.reverseCompliment
            [l.preContext, l.mutatedFrom, l.postContext])
    ∧ (∃ x y z, rec.trinucContext = [x, y, z]
        ∧ ParseKucabCompendium.isPurine y = false)
    ∧ ParseKucabCompendium.isPurine rec.mutationFrom = false := by
  unfold ParseKucabCompendium.processKucabLine at h
  cases hd : (ParseKucabCompendium.relevantDesignations includeAllPAHs).contains
      l.designation with
  | false => rw [hd] at h; exact absurd h (by simp)
  | true =>
    rw [hd] at h
    cases hp : ParseKucabCompendium.isPurine l.mutatedFrom with
    | true =>
      rw [hp] at h
      simp only [Bool.not_true, Bool.false_eq_true, if_false, if_true] at h
      have hrec := (Option.some.inj h).symm
      subst hrec
      refine ⟨by simp [hp], fun _ => ⟨rfl, rfl, rfl⟩, ?_, ?_⟩
      · exact ⟨_, _, _, rfl, by rw [isPurine_complementBase, hp]; rfl⟩
      · show ParseKucabCompendium.isPurine
          (ParseKucabCompendium.complementBase l.mutatedFrom) = false
        rw [isPurine_complementBase, hp]
        rfl
    | false =>
      rw [hp] at h
      simp only [Bool.not_true, Bool.false_eq_true, if_false, if_true] at h
      have hrec := (Option.some.inj h).symm
      subst hrec
      refine ⟨?_, ?_, ⟨_, _, _, rfl, hp⟩, hp⟩
      · constructor
        · intro habs
          exact absurd (show ("+" : String) = "-" from habs) (by decide)
        · intro habs
          exact absurd habs (by decide)
      · intro habs
        exact absurd habs (by decide)

/-- Witness for C9: a PAH-designated line with purine reference base A is
written on the '-' strand with complemented mutation A>G ↦ T>C and
reverse-complemented context AAA ↦ TTT. -/
theorem C9_purine_flip_invariant_witness :
    ((("-" : String) = "-") ↔ ParseKucabCompendium.isPurine .A = true)
    ∧ (ParseKucabCompendium.isPurine .A = true →
        ParseKucabCompendium.DNABase.T = ParseKucabCompendium.complementBase .A
        ∧ ParseKucabCompendium.DNABase.C = ParseKucabCompendium.complementBase .G
        ∧ [ParseKucabCompendium.DNABase.T, .T, .T]
            = ParseKucabCompendium.reverseCompliment [.A, .A, .A])
    ∧ (∃ x y z, [ParseKucabCompendium.DNABase.T, .T, .T] = [x, y, z]
        ∧ ParseKucabCompendium.isPurine y = false)
    ∧ ParseKucabCompendium.isPurine .T = false :=
  C9_purine_flip_invariant true ⟨"MSM0.54", "1", 1000, .A, .G, .A, .A⟩
    ⟨"chr1", 999, 1000, [.T, .T, .T], .T, .C, "-"⟩ rfl

/-- C10 counterexample.  With two stratifying paths where only the second
lies in the nucleosome-map directory, the first iteration opens, reads and
writes its files before the second iteration's assert fires: the failure does
not happen before all file operations. -/
theorem C10_earlier_iterations_run_counterexample :
    (StratifyNucleosomeMap.stratifyTrace ["maps", "mapA"]
      [["other", "feat.bed"], ["maps", "mapA", "feat.bed"]]).2
      = some (.sameDirAssert ["maps", "mapA", "feat.bed"])
    ∧ (StratifyNucleosomeMap.stratifyTrace ["maps", "mapA"]
      [["other", "feat.bed"], ["maps", "mapA", "feat.bed"]]).1
      ≠ [] := by
  constructor
  · rfl
  · decide

/-- C10 (amended).  Whenever some stratifying-features path lies in the same
directory as the base nucleosome map, the run fails with the assertion at the
start of that path's iteration, before any file operation of that iteration
or of later paths (iterations for earlier, non-offending paths have already
run); and no write issued by any run ever targets the original nucleosome-map
file, so it is never overwritten by the stratified output. -/
theorem C10_same_directory_assert_protects_original :
    (∀ (nucleosomeMapDir : StratifyNucleosomeMap.Path)
       (pre : List StratifyNucleosomeMap.Path) (f : StratifyNucleosomeMap.Path)
       (rest : List StratifyNucleosomeMap.Path),
       (∀ g ∈ pre, nucleosomeMapDir ≠ StratifyNucleosomeMap.dirNameOf g) →
       nucleosomeMapDir = StratifyNucleosomeMap.dirNameOf f →
       StratifyNucleosomeMap.stratifyTrace nucleosomeMapDir (pre ++ f :: rest)
         = ((pre.map (StratifyNucleosomeMap.iterationEvents nucleosomeMapDir)).flatten,
            some (.sameDirAssert f)))
    ∧ (∀ (nucleosomeMapDir : StratifyNucleosomeMap.Path)
       (paths : List StratifyNucleosomeMap.Path) (p : StratifyNucleosomeMap.Path),
       StratifyNucleosomeMap.FileEvent.writeEv p
         ∈ (StratifyNucleosomeMap.stratifyTrace nucleosomeMapDir paths).1 →
       p ≠ StratifyNucleosomeMap.originalNucMapFilePath nucleosomeMapDir) :=
  ⟨StratifyNucleosomeMap.stratifyTrace_halts_at_offender,
   StratifyNucleosomeMap.stratifyTrace_no_write_to_original⟩

/-- Witness for C10: the counterexample run halts at the offending second
path with exactly the first iteration's events, and the stratified-map write
of the first iteration does not target the original map. -/
theorem C10_same_directory_assert_protects_original_witness :
    StratifyNucleosomeMap.stratifyTrace ["maps", "mapA"]
      ([["other", "feat.bed"]] ++ ["maps", "mapA", "feat.bed"] :: [])
      = (([["other", "feat.bed"]].map
          (StratifyNucleosomeMap.iterationEvents ["maps", "mapA"])).flatten,
         some (.sameDirAssert ["maps", "mapA", "feat.bed"]))
    ∧ (["other", "other.bed"] : StratifyNucleosomeMap.Path)
      ≠ StratifyNucleosomeMap.originalNucMapFilePath ["maps", "mapA"] :=
  ⟨C10_same_directory_assert_protects_original.1 ["maps", "mapA"]
    [["other", "feat.bed"]] ["maps", "mapA", "feat.bed"] [] (by decide) (by decide),
   C10_same_directory_assert_protects_original.2 ["maps", "mapA"]
    [["other", "feat.bed"]] ["other", "other.bed"] (by decide)⟩
